import Mathlib

set_option maxRecDepth 10000

/- Shallow embedding of pgferry (a Go MySQL/SQLite → PostgreSQL migration
tool) used to check its natural-language specification.  Go strings are
modelled as `List Char` where character-level reasoning is needed and as
`String` for SQL-text formatting; Go `int64` fields are modelled as `Int`.
Every definition mirrors a named function of the source tree (file and
function named in its doc comment). -/

/-- Single-quote character, written numerically so that this file contains
no apostrophe literals. -/
def squote : Char := Char.ofNat 39

/-- Double-quote character. -/
def dquote : Char := Char.ofNat 34

/-- Whitespace recognised by Go `strings.TrimSpace` (`unicode.IsSpace`),
restricted to ASCII: space, \t, \n, \v, \f, \r. -/
def goIsSpace (c : Char) : Bool :=
  c = ' ' || c = '\t' || c = '\n' || c = '\r' || c = Char.ofNat 11 || c = Char.ofNat 12

/-- Left part of Go `strings.TrimSpace`. -/
def goTrimLeft (l : List Char) : List Char := l.dropWhile goIsSpace

/-- Right part of Go `strings.TrimSpace`. -/
def goTrimRight (l : List Char) : List Char := (l.reverse.dropWhile goIsSpace).reverse

/-- Go `strings.TrimSpace` over `List Char`. -/
def goTrimSpace (l : List Char) : List Char := goTrimRight (goTrimLeft l)

/-- `isDollarTagStart` from hooks.go: first character of a dollar-quote tag. -/
def isDollarTagStart (c : Char) : Bool :=
  c = '_' || ('a' ≤ c && c ≤ 'z') || ('A' ≤ c && c ≤ 'Z')

/-- `isDollarTagChar` from hooks.go: subsequent characters of a dollar-quote tag. -/
def isDollarTagChar (c : Char) : Bool :=
  isDollarTagStart c || ('0' ≤ c && c ≤ '9')

/-- `parseDollarTag` from hooks.go, reading from the suffix of the input that
starts at the current position.  Returns the full tag including both `$`
delimiters (`$$`, or `$tag$` with the tag scanned over identifier
characters). -/
def parseDollarTag (l : List Char) : Option (List Char) :=
  match l with
  | c0 :: rest =>
    if c0 = '$' then
      match rest with
      | c1 :: _ =>
        if c1 = '$' then some ['$', '$']
        else if isDollarTagStart c1 then
          match rest.dropWhile isDollarTagChar with
          | d :: _ =>
            if d = '$' then some ('$' :: (rest.takeWhile isDollarTagChar ++ ['$']))
            else none
          | [] => none
        else none
      | [] => none
    else none
  | [] => none

/-- Scanner state of `splitStatements` (hooks.go): the five context flags of
the single-pass state machine. -/
structure SplitState where
  inSingleQuote : Bool
  inDoubleQuote : Bool
  inLineComment : Bool
  blockCommentDepth : Nat
  dollarTag : List Char
deriving DecidableEq, Repr

/-- The top-level scanner state: no quote, comment or dollar-quote context. -/
def SplitState.initial : SplitState :=
  ⟨false, false, false, 0, []⟩

/-- The `-- line comment` block of the `splitStatements` loop (hooks.go):
copy the byte, close the comment on a newline. -/
def stepLineComment (c : Char) (st : SplitState) :
    List Char × Nat × SplitState :=
  if c = '\n' then ([c], 0, { st with inLineComment := false })
  else ([c], 0, st)

/-- The nested `/* block comment */` block of the `splitStatements` loop
(hooks.go): copy bytes, adjusting the depth on comment delimiters. -/
def stepBlockComment (c : Char) (rest : List Char) (st : SplitState) :
    List Char × Nat × SplitState :=
  if c = '/' && rest.head? = some '*' then
    ([c, '*'], 1, { st with blockCommentDepth := st.blockCommentDepth + 1 })
  else if c = '*' && rest.head? = some '/' then
    ([c, '/'], 1, { st with blockCommentDepth := st.blockCommentDepth - 1 })
  else ([c], 0, st)

/-- The single-quoted-literal block of the `splitStatements` loop (hooks.go):
copy bytes, treating a doubled quote as an escape. -/
def stepSingleQuote (c : Char) (rest : List Char) (st : SplitState) :
    List Char × Nat × SplitState :=
  if c = squote then
    if rest.head? = some squote then ([c, squote], 1, st)
    else ([c], 0, { st with inSingleQuote := false })
  else ([c], 0, st)

/-- The double-quoted-identifier block of the `splitStatements` loop
(hooks.go): copy bytes, treating a doubled quote as an escape. -/
def stepDoubleQuote (c : Char) (rest : List Char) (st : SplitState) :
    List Char × Nat × SplitState :=
  if c = dquote then
    if rest.head? = some dquote then ([c, dquote], 1, st)
    else ([c], 0, { st with inDoubleQuote := false })
  else ([c], 0, st)

/-- The dollar-quoted-body block of the `splitStatements` loop (hooks.go):
close the body when the stored tag is the next text, else copy the byte. -/
def stepDollarBody (c : Char) (rest : List Char) (st : SplitState) :
    List Char × Nat × SplitState :=
  if st.dollarTag.isPrefixOf (c :: rest) then
    (st.dollarTag, st.dollarTag.length - 1, { st with dollarTag := [] })
  else ([c], 0, st)

/-- The top-level `switch` of the `splitStatements` loop (hooks.go): open
comment/quote/dollar contexts, or report a statement-terminating semicolon
(`none`). -/
def stepTopLevel (c : Char) (rest : List Char) (st : SplitState) :
    Option (List Char × Nat × SplitState) :=
  if c = '-' && rest.head? = some '-' then
    some ([c, '-'], 1, { st with inLineComment := true })
  else if c = '/' && rest.head? = some '*' then
    some ([c, '*'], 1, { st with blockCommentDepth := 1 })
  else if c = squote then
    some ([c], 0, { st with inSingleQuote := true })
  else if c = dquote then
    some ([c], 0, { st with inDoubleQuote := true })
  else if c = '$' then
    match parseDollarTag (c :: rest) with
    | some tag => some (tag, tag.length - 1, { st with dollarTag := tag })
    | none => some ([c], 0, st)
  else if c = ';' then
    none
  else
    some ([c], 0, st)

/-- One step of the `splitStatements` loop (hooks.go).  `c` is the current
byte, `rest` the bytes after it.  `some (w, k, st)` means: append `w` to the
current statement buffer, additionally consume the first `k` bytes of `rest`
(Go advances `i` by `1 + k`), and continue in state `st`.  `none` means `c`
is a semicolon in the top-level context: the buffer is terminated.  The
branches appear in the order of the Go dispatch. -/
def stepSplit (c : Char) (rest : List Char) (st : SplitState) :
    Option (List Char × Nat × SplitState) :=
  if st.inLineComment then some (stepLineComment c st)
  else if 0 < st.blockCommentDepth then some (stepBlockComment c rest st)
  else if st.inSingleQuote then some (stepSingleQuote c rest st)
  else if st.inDoubleQuote then some (stepDoubleQuote c rest st)
  else if st.dollarTag ≠ [] then some (stepDollarBody c rest st)
  else stepTopLevel c rest st

/-- The loop of `splitStatements` (hooks.go): `cur` is the current statement
buffer, `acc` the statements emitted so far.  On a top-level semicolon the
trimmed buffer is emitted if non-empty; a trailing non-empty trimmed buffer
is emitted at the end of the input.  Since every step consumes at least one
character, the loop is driven by a fuel argument that the wrappers instantiate
with the input length (`splitGoF fuel` agrees with the Go loop whenever
`l.length ≤ fuel`). -/
def splitGoF : Nat → List Char → SplitState → List Char → List (List Char) →
    List (List Char)
  | _, [], _, cur, acc =>
    let s := goTrimSpace cur
    if s = [] then acc else acc ++ [s]
  | 0, _ :: _, _, cur, acc =>
    let s := goTrimSpace cur
    if s = [] then acc else acc ++ [s]
  | fuel + 1, c :: rest, st, cur, acc =>
    match stepSplit c rest st with
    | some (w, k, st2) => splitGoF fuel (rest.drop k) st2 (cur ++ w) acc
    | none =>
      let s := goTrimSpace cur
      splitGoF fuel rest st [] (if s = [] then acc else acc ++ [s])

/-- The `splitStatements` loop started with enough fuel for its input. -/
def splitGo (l : List Char) (st : SplitState) (cur : List Char)
    (acc : List (List Char)) : List (List Char) :=
  splitGoF l.length l st cur acc

/-- `splitStatements` from hooks.go. -/
def splitStatements (sql : List Char) : List (List Char) :=
  splitGo sql SplitState.initial [] []

/-- Joining a list of statements back together with `;` separators (used to
state the re-split property of the specification). -/
def joinSemi : List (List Char) → List Char
  | [] => []
  | [s] => s
  | s :: ss => s ++ ';' :: joinSemi ss

/-- State-only scan of the `splitStatements` machine: runs `stepSplit` over
the input and returns the final state, or `none` if a top-level semicolon is
encountered (fuelled like `splitGoF`). -/
def scanCF : Nat → List Char → SplitState → Option SplitState
  | _, [], st => some st
  | 0, _ :: _, st => some st
  | fuel + 1, c :: rest, st =>
    match stepSplit c rest st with
    | some (_, k, st2) => scanCF fuel (rest.drop k) st2
    | none => none

/-- The state-only scan started with enough fuel for its input. -/
def scanC (l : List Char) (st : SplitState) : Option SplitState :=
  scanCF l.length l st

example : splitStatements ("SELECT 1; SELECT 2;".toList) =
    ["SELECT 1".toList, "SELECT 2".toList] := by decide

example : splitStatements ("SELECT 1;; ;SELECT 2;".toList) =
    ["SELECT 1".toList, "SELECT 2".toList] := by decide

/-- A `takeWhile` never reads past an element that fails the predicate. -/
lemma takeWhile_append_neg {p : Char → Bool} {a : Char} (ha : p a = false) :
    ∀ (x y : List Char), List.takeWhile p (x ++ a :: y) = List.takeWhile p x
  | [], y => by simp [List.takeWhile_cons, ha]
  | b :: x, y => by
    by_cases hb : p b
    · simp [List.takeWhile_cons, hb, takeWhile_append_neg ha x y]
    · simp [List.takeWhile_cons, hb]

/-- A `dropWhile` stops no later than the first element failing the predicate. -/
lemma dropWhile_append_neg {p : Char → Bool} {a : Char} (ha : p a = false) :
    ∀ (x y : List Char), List.dropWhile p (x ++ a :: y) = List.dropWhile p x ++ a :: y
  | [], y => by simp [List.dropWhile_cons, ha]
  | b :: x, y => by
    by_cases hb : p b
    · simp [List.dropWhile_cons, hb, dropWhile_append_neg ha x y]
    · simp [List.dropWhile_cons, hb]

/-- A semicolon-free prefix of `u ++ ';' :: v` is already a prefix of `u`. -/
lemma prefix_through_semi {tag : List Char} (hs : ';' ∉ tag) :
    ∀ {u v : List Char}, tag <+: u ++ ';' :: v → tag <+: u := by
  induction tag with
  | nil => intro u v _; exact List.nil_prefix
  | cons a tg ih =>
    intro u v h
    cases u with
    | nil =>
      rw [List.nil_append, List.cons_prefix_cons] at h
      exact absurd (h.1 ▸ List.mem_cons_self a tg) hs
    | cons b u2 =>
      rw [List.cons_append, List.cons_prefix_cons] at h
      rw [List.cons_prefix_cons]
      refine ⟨h.1, ih (fun hm => hs (List.mem_cons_of_mem a hm)) h.2⟩

/-- A successfully parsed dollar tag is a prefix of the input. -/
lemma parseDollarTag_isPrefix {l tag : List Char}
    (h : parseDollarTag l = some tag) : tag <+: l := by
  unfold parseDollarTag at h
  split at h
  case _ c0 rest =>
    split_ifs at h with h0
    subst h0
    split at h
    case _ c1 rst1 =>
      split_ifs at h with h1 h2
      · simp only [Option.some.injEq] at h
        subst h h1
        exact List.cons_prefix_cons.mpr ⟨rfl, List.cons_prefix_cons.mpr ⟨rfl, List.nil_prefix⟩⟩
      · split at h
        case _ d rst2 hdrop =>
          split_ifs at h with hd
          simp only [Option.some.injEq] at h
          subst h hd
          refine List.cons_prefix_cons.mpr ⟨rfl, ⟨rst2, ?_⟩⟩
          calc List.takeWhile isDollarTagChar (c1 :: rst1) ++ ['$'] ++ rst2
              = List.takeWhile isDollarTagChar (c1 :: rst1) ++ ('$' :: rst2) := by
                simp
            _ = List.takeWhile isDollarTagChar (c1 :: rst1) ++
                List.dropWhile isDollarTagChar (c1 :: rst1) := by rw [hdrop]
            _ = c1 :: rst1 := List.takeWhile_append_dropWhile _ _
        case _ hdrop => exact absurd h (by simp)
    case _ => exact absurd h (by simp)
  case _ => exact absurd h (by simp)

/-- A successfully parsed dollar tag contains no semicolon. -/
lemma parseDollarTag_no_semi {l tag : List Char}
    (h : parseDollarTag l = some tag) : ';' ∉ tag := by
  unfold parseDollarTag at h
  split at h
  case _ c0 rest =>
    split_ifs at h with h0
    subst h0
    split at h
    case _ c1 rst1 =>
      split_ifs at h with h1 h2
      · simp only [Option.some.injEq] at h
        subst h
        decide
      · split at h
        case _ d rst2 hdrop =>
          split_ifs at h with hd
          simp only [Option.some.injEq] at h
          subst h
          intro hmem
          rcases List.mem_cons.mp hmem with hm1 | hm2
          · exact absurd hm1 (by decide)
          · rcases List.mem_append.mp hm2 with hm3 | hm4
            · exact absurd (List.mem_takeWhile_imp hm3) (by decide)
            · exact absurd (List.mem_singleton.mp hm4) (by decide)
        case _ hdrop => exact absurd h (by simp)
    case _ => exact absurd h (by simp)
  case _ => exact absurd h (by simp)

/-- A successfully parsed dollar tag starts with a dollar sign. -/
lemma parseDollarTag_shape {l tag : List Char}
    (h : parseDollarTag l = some tag) : ∃ t, tag = '$' :: t := by
  unfold parseDollarTag at h
  split at h
  case _ c0 rest =>
    split_ifs at h with h0
    split at h
    case _ c1 rst1 =>
      split_ifs at h with h1 h2
      · simp only [Option.some.injEq] at h
        exact ⟨_, h.symm⟩
      · split at h
        case _ d rst2 hdrop =>
          split_ifs at h with hd
          simp only [Option.some.injEq] at h
          exact ⟨_, h.symm⟩
        case _ hdrop => exact absurd h (by simp)
    case _ => exact absurd h (by simp)
  case _ => exact absurd h (by simp)

/-- Appending text after a semicolon cannot change how a dollar tag parses:
the tag scanner never reads past a semicolon. -/
lemma parseDollarTag_append_semi (u v : List Char) :
    parseDollarTag (u ++ ';' :: v) = parseDollarTag u := by
  have hsemi : isDollarTagChar ';' = false := by decide
  cases u with
  | nil => rfl
  | cons c0 u1 =>
    by_cases h0 : c0 = '$'
    · subst h0
      cases u1 with
      | nil => rfl
      | cons c1 u2 =>
        by_cases h1 : c1 = '$'
        · subst h1; rfl
        · by_cases h2 : isDollarTagStart c1
          · have hdw := dropWhile_append_neg (p := isDollarTagChar) hsemi (c1 :: u2) v
            have htw := takeWhile_append_neg (p := isDollarTagChar) hsemi (c1 :: u2) v
            show parseDollarTag ('$' :: c1 :: (u2 ++ ';' :: v)) = _
            unfold parseDollarTag
            simp only [if_pos rfl, if_neg h1, if_pos h2]
            rw [show c1 :: (u2 ++ ';' :: v) = (c1 :: u2) ++ ';' :: v from rfl, hdw, htw]
            cases hcase : List.dropWhile isDollarTagChar (c1 :: u2) with
            | nil => rfl
            | cons d rst => rfl
          · show parseDollarTag ('$' :: c1 :: (u2 ++ ';' :: v)) = _
            unfold parseDollarTag
            simp only [if_pos rfl, if_neg h1, if_neg h2]
    · show parseDollarTag (c0 :: (u1 ++ ';' :: v)) = parseDollarTag (c0 :: u1)
      unfold parseDollarTag
      simp only [if_neg h0]

/-- A non-empty semicolon-free list is never a prefix of a list headed by a
semicolon. -/
lemma not_isPrefixOf_semi {tag : List Char} (hne : tag ≠ []) (hs : ';' ∉ tag)
    (l : List Char) : tag.isPrefixOf (';' :: l) = false := by
  cases tag with
  | nil => exact absurd rfl hne
  | cons t0 tl =>
    by_cases h0 : t0 = ';'
    · exact absurd (h0 ▸ List.mem_cons_self t0 tl) hs
    · rw [Bool.eq_false_iff]
      intro hp
      exact h0 (List.cons_prefix_cons.mp (List.isPrefixOf_iff_prefix.mp hp)).1


/-- The line-comment step writes what it consumes. -/
lemma stepLineComment_write {c : Char} {st : SplitState} {w : List Char}
    {k : Nat} {st2 : SplitState} (rest : List Char)
    (h : stepLineComment c st = (w, k, st2)) :
    w = c :: rest.take k ∧ k ≤ rest.length := by
  unfold stepLineComment at h
  split_ifs at h <;>
    simp only [Prod.mk.injEq] at h <;>
    exact ⟨by simp [← h.1, ← h.2.1], by simp [← h.2.1]⟩

/-- The block-comment step writes what it consumes. -/
lemma stepBlockComment_write {c : Char} {rest : List Char} {st : SplitState}
    {w : List Char} {k : Nat} {st2 : SplitState}
    (h : stepBlockComment c rest st = (w, k, st2)) :
    w = c :: rest.take k ∧ k ≤ rest.length := by
  unfold stepBlockComment at h
  split_ifs at h with h1 h2 <;> simp only [Prod.mk.injEq] at h
  · obtain ⟨r, rs, hr, hstar⟩ : ∃ r rs, rest = r :: rs ∧ r = '*' := by
      cases rest with
      | nil => simp at h1
      | cons r rs =>
        refine ⟨r, rs, rfl, ?_⟩
        have h1b := h1
        simp only [Bool.and_eq_true, decide_eq_true_eq, List.head?_cons,
          Option.some.injEq] at h1b
        exact h1b.2
    subst hr hstar
    exact ⟨by simp [← h.1, ← h.2.1], by simp [← h.2.1]⟩
  · obtain ⟨r, rs, hr, hslash⟩ : ∃ r rs, rest = r :: rs ∧ r = '/' := by
      cases rest with
      | nil => simp at h2
      | cons r rs =>
        refine ⟨r, rs, rfl, ?_⟩
        have h2b := h2
        simp only [Bool.and_eq_true, decide_eq_true_eq, List.head?_cons,
          Option.some.injEq] at h2b
        exact h2b.2
    subst hr hslash
    exact ⟨by simp [← h.1, ← h.2.1], by simp [← h.2.1]⟩
  · exact ⟨by simp [← h.1, ← h.2.1], by simp [← h.2.1]⟩

/-- The single-quote step writes what it consumes. -/
lemma stepSingleQuote_write {c : Char} {rest : List Char} {st : SplitState}
    {w : List Char} {k : Nat} {st2 : SplitState}
    (h : stepSingleQuote c rest st = (w, k, st2)) :
    w = c :: rest.take k ∧ k ≤ rest.length := by
  unfold stepSingleQuote at h
  split_ifs at h with h1 h2 <;> simp only [Prod.mk.injEq] at h
  · obtain ⟨r, rs, hr, hq⟩ : ∃ r rs, rest = r :: rs ∧ r = squote := by
      cases rest with
      | nil => simp at h2
      | cons r rs => exact ⟨r, rs, rfl, by simpa using h2⟩
    subst hr hq
    exact ⟨by simp [← h.1, ← h.2.1], by simp [← h.2.1]⟩
  · exact ⟨by simp [← h.1, ← h.2.1], by simp [← h.2.1]⟩
  · exact ⟨by simp [← h.1, ← h.2.1], by simp [← h.2.1]⟩

/-- The double-quote step writes what it consumes. -/
lemma stepDoubleQuote_write {c : Char} {rest : List Char} {st : SplitState}
    {w : List Char} {k : Nat} {st2 : SplitState}
    (h : stepDoubleQuote c rest st = (w, k, st2)) :
    w = c :: rest.take k ∧ k ≤ rest.length := by
  unfold stepDoubleQuote at h
  split_ifs at h with h1 h2 <;> simp only [Prod.mk.injEq] at h
  · obtain ⟨r, rs, hr, hq⟩ : ∃ r rs, rest = r :: rs ∧ r = dquote := by
      cases rest with
      | nil => simp at h2
      | cons r rs => exact ⟨r, rs, rfl, by simpa using h2⟩
    subst hr hq
    exact ⟨by simp [← h.1, ← h.2.1], by simp [← h.2.1]⟩
  · exact ⟨by simp [← h.1, ← h.2.1], by simp [← h.2.1]⟩
  · exact ⟨by simp [← h.1, ← h.2.1], by simp [← h.2.1]⟩

/-- A non-empty prefix of `c :: rest` consists of `c` followed by a prefix of
`rest`, so it equals the consumed text. -/
lemma prefix_write {tag : List Char} {c : Char} {rest : List Char}
    (hne : tag ≠ []) (hpre : tag <+: c :: rest) :
    tag = c :: rest.take (tag.length - 1) ∧ tag.length - 1 ≤ rest.length := by
  obtain ⟨t0, tl, ht⟩ : ∃ t0 tl, tag = t0 :: tl := by
    cases tag with
    | nil => exact absurd rfl hne
    | cons t0 tl => exact ⟨t0, tl, rfl⟩
  subst ht
  obtain ⟨he, hp⟩ := List.cons_prefix_cons.mp hpre
  subst he
  refine ⟨?_, by simpa using hp.length_le⟩
  have := List.prefix_iff_eq_take.mp hp
  simpa using this

/-- The dollar-body step writes what it consumes. -/
lemma stepDollarBody_write {c : Char} {rest : List Char} {st : SplitState}
    {w : List Char} {k : Nat} {st2 : SplitState} (hne : st.dollarTag ≠ [])
    (h : stepDollarBody c rest st = (w, k, st2)) :
    w = c :: rest.take k ∧ k ≤ rest.length := by
  unfold stepDollarBody at h
  split_ifs at h with h1 <;> simp only [Prod.mk.injEq] at h
  · obtain ⟨hw, hk⟩ := prefix_write hne (List.isPrefixOf_iff_prefix.mp h1)
    exact ⟨by rw [← h.1, ← h.2.1]; exact hw, by rw [← h.2.1]; exact hk⟩
  · exact ⟨by simp [← h.1, ← h.2.1], by simp [← h.2.1]⟩

/-- The top-level step writes what it consumes. -/
lemma stepTopLevel_write {c : Char} {rest : List Char} {st : SplitState}
    {w : List Char} {k : Nat} {st2 : SplitState}
    (h : stepTopLevel c rest st = some (w, k, st2)) :
    w = c :: rest.take k ∧ k ≤ rest.length := by
  unfold stepTopLevel at h
  split_ifs at h with h1 h2 h3 h4 h5 h6 <;>
    try (simp only [Option.some.injEq, Prod.mk.injEq] at h)
  · obtain ⟨r, rs, hr, hd⟩ : ∃ r rs, rest = r :: rs ∧ r = '-' := by
      cases rest with
      | nil => simp at h1
      | cons r rs =>
        refine ⟨r, rs, rfl, ?_⟩
        have h1b := h1
        simp only [Bool.and_eq_true, decide_eq_true_eq, List.head?_cons,
          Option.some.injEq] at h1b
        exact h1b.2
    subst hr hd
    exact ⟨by simp [← h.1, ← h.2.1], by simp [← h.2.1]⟩
  · obtain ⟨r, rs, hr, hstar⟩ : ∃ r rs, rest = r :: rs ∧ r = '*' := by
      cases rest with
      | nil => simp at h2
      | cons r rs =>
        refine ⟨r, rs, rfl, ?_⟩
        have h2b := h2
        simp only [Bool.and_eq_true, decide_eq_true_eq, List.head?_cons,
          Option.some.injEq] at h2b
        exact h2b.2
    subst hr hstar
    exact ⟨by simp [← h.1, ← h.2.1], by simp [← h.2.1]⟩
  · exact ⟨by simp [← h.1, ← h.2.1], by simp [← h.2.1]⟩
  · exact ⟨by simp [← h.1, ← h.2.1], by simp [← h.2.1]⟩
  · split at h
    case _ tag hparse =>
      simp only [Option.some.injEq, Prod.mk.injEq] at h
      have hpre := parseDollarTag_isPrefix hparse
      have hne : tag ≠ [] := by
        obtain ⟨t, ht⟩ := parseDollarTag_shape hparse
        simp [ht]
      obtain ⟨hw, hk⟩ := prefix_write hne hpre
      exact ⟨by rw [← h.1, ← h.2.1]; exact hw, by rw [← h.2.1]; exact hk⟩
    case _ hparse =>
      simp only [Option.some.injEq, Prod.mk.injEq] at h
      exact ⟨by simp [← h.1, ← h.2.1], by simp [← h.2.1]⟩
  · exact ⟨by simp [← h.1, ← h.2.1], by simp [← h.2.1]⟩

/-- A step of the splitter writes exactly the characters it consumes, and
never consumes past the end of the input. -/
lemma stepSplit_some {c : Char} {rest : List Char} {st : SplitState}
    {w : List Char} {k : Nat} {st2 : SplitState}
    (h : stepSplit c rest st = some (w, k, st2)) :
    w = c :: rest.take k ∧ k ≤ rest.length := by
  unfold stepSplit at h
  split_ifs at h with h1 h2 h3 h4 h5
  · exact stepLineComment_write rest (by simpa using h)
  · exact stepBlockComment_write (by simpa using h)
  · exact stepSingleQuote_write (by simpa using h)
  · exact stepDoubleQuote_write (by simpa using h)
  · exact stepDollarBody_write h5 (by simpa using h)
  · exact stepTopLevel_write h

/-- A step of the splitter preserves semicolon-freeness of the stored dollar
tag. -/
lemma stepSplit_tagOK {c : Char} {rest : List Char} {st : SplitState}
    {w : List Char} {k : Nat} {st2 : SplitState}
    (h : stepSplit c rest st = some (w, k, st2)) (hs : ';' ∉ st.dollarTag) :
    ';' ∉ st2.dollarTag := by
  unfold stepSplit at h
  split_ifs at h with h1 h2 h3 h4 h5
  · unfold stepLineComment at h
    split_ifs at h <;> simp only [Option.some.injEq, Prod.mk.injEq] at h <;>
      (rw [← h.2.2]; exact hs)
  · unfold stepBlockComment at h
    split_ifs at h <;> simp only [Option.some.injEq, Prod.mk.injEq] at h <;>
      (rw [← h.2.2]; exact hs)
  · unfold stepSingleQuote at h
    split_ifs at h <;> simp only [Option.some.injEq, Prod.mk.injEq] at h <;>
      (rw [← h.2.2]; exact hs)
  · unfold stepDoubleQuote at h
    split_ifs at h <;> simp only [Option.some.injEq, Prod.mk.injEq] at h <;>
      (rw [← h.2.2]; exact hs)
  · unfold stepDollarBody at h
    split_ifs at h <;> simp only [Option.some.injEq, Prod.mk.injEq] at h
    · rw [← h.2.2]; simp
    · rw [← h.2.2]; exact hs
  · unfold stepTopLevel at h
    split_ifs at h with g1 g2 g3 g4 g5 g6 <;>
      try (simp only [Option.some.injEq, Prod.mk.injEq] at h)
    · rw [← h.2.2]; exact hs
    · rw [← h.2.2]; exact hs
    · rw [← h.2.2]; exact hs
    · rw [← h.2.2]; exact hs
    · split at h
      case _ tag hparse =>
        simp only [Option.some.injEq, Prod.mk.injEq] at h
        rw [← h.2.2]
        exact parseDollarTag_no_semi hparse
      case _ hparse =>
        simp only [Option.some.injEq, Prod.mk.injEq] at h
        rw [← h.2.2]
        exact hs
    · rw [← h.2.2]; exact hs

/-- A semicolon in the top-level context terminates the statement. -/
lemma stepSplit_semi_top (rest : List Char) :
    stepSplit ';' rest SplitState.initial = none := rfl

/-- A semicolon inside a line comment, block comment, quoted literal,
quoted identifier or dollar-quoted body is copied verbatim: the state is
unchanged and nothing is emitted. -/
lemma stepSplit_semi_nonTop {st : SplitState}
    (hn : st.inLineComment = true ∨ 0 < st.blockCommentDepth ∨
      st.inSingleQuote = true ∨ st.inDoubleQuote = true ∨ st.dollarTag ≠ [])
    (hs : ';' ∉ st.dollarTag) (rest : List Char) :
    stepSplit ';' rest st = some ([';'], 0, st) := by
  unfold stepSplit
  by_cases h1 : st.inLineComment
  · rw [if_pos h1]
    unfold stepLineComment
    rw [if_neg (by decide)]
  · rw [if_neg h1]
    by_cases h2 : 0 < st.blockCommentDepth
    · rw [if_pos h2]
      unfold stepBlockComment
      rw [if_neg (by simp), if_neg (by simp)]
    · rw [if_neg h2]
      by_cases h3 : st.inSingleQuote
      · rw [if_pos h3]
        unfold stepSingleQuote
        rw [if_neg (by decide)]
      · rw [if_neg h3]
        by_cases h4 : st.inDoubleQuote
        · rw [if_pos h4]
          unfold stepDoubleQuote
          rw [if_neg (by decide)]
        · rw [if_neg h4]
          by_cases h5 : st.dollarTag ≠ []
          · rw [if_pos h5]
            unfold stepDollarBody
            rw [if_neg ?_]
            intro hp
            rw [not_isPrefixOf_semi h5 hs rest] at hp
            exact Bool.false_ne_true hp
          · exfalso
            rcases hn with h | h | h | h | h
            · exact h1 h
            · exact h2 h
            · exact h3 (by simpa using h)
            · exact h4 (by simpa using h)
            · exact h5 h


/-- Text appended after a semicolon separator does not change the
block-comment step. -/
lemma stepBlockComment_append (c : Char) (rest v : List Char)
    (st : SplitState) :
    stepBlockComment c (rest ++ ';' :: v) st = stepBlockComment c rest st := by
  cases rest with
  | nil =>
    simp only [stepBlockComment, List.nil_append, List.head?_cons,
      List.head?_nil,
      show decide (some ';' = some ('*' : Char)) = false from by decide,
      show decide ((none : Option Char) = some '*') = false from by decide,
      show decide (some ';' = some ('/' : Char)) = false from by decide,
      show decide ((none : Option Char) = some '/') = false from by decide,
      Bool.and_false]
  | cons r rs =>
    simp only [stepBlockComment, List.cons_append, List.head?_cons]

/-- Text appended after a semicolon separator does not change the
single-quote step. -/
lemma stepSingleQuote_append (c : Char) (rest v : List Char)
    (st : SplitState) :
    stepSingleQuote c (rest ++ ';' :: v) st = stepSingleQuote c rest st := by
  cases rest with
  | nil =>
    simp only [stepSingleQuote, List.nil_append, List.head?_cons,
      List.head?_nil,
      show (some ';' = some squote) = False from eq_false (by decide),
      show ((none : Option Char) = some squote) = False from eq_false (by decide),
      if_false]
  | cons r rs =>
    simp only [stepSingleQuote, List.cons_append, List.head?_cons]

/-- Text appended after a semicolon separator does not change the
double-quote step. -/
lemma stepDoubleQuote_append (c : Char) (rest v : List Char)
    (st : SplitState) :
    stepDoubleQuote c (rest ++ ';' :: v) st = stepDoubleQuote c rest st := by
  cases rest with
  | nil =>
    simp only [stepDoubleQuote, List.nil_append, List.head?_cons,
      List.head?_nil,
      show (some ';' = some dquote) = False from eq_false (by decide),
      show ((none : Option Char) = some dquote) = False from eq_false (by decide),
      if_false]
  | cons r rs =>
    simp only [stepDoubleQuote, List.cons_append, List.head?_cons]

/-- Text appended after a semicolon separator does not change the
dollar-body step, because the stored tag never contains a semicolon. -/
lemma stepDollarBody_append (c : Char) (rest v : List Char) (st : SplitState)
    (hs : ';' ∉ st.dollarTag) :
    stepDollarBody c (rest ++ ';' :: v) st = stepDollarBody c rest st := by
  unfold stepDollarBody
  by_cases hpre : st.dollarTag.isPrefixOf (c :: rest) = true
  · rw [if_pos hpre, if_pos ?_]
    have := (List.isPrefixOf_iff_prefix.mp hpre).trans
      (List.prefix_append (c :: rest) (';' :: v))
    rw [List.cons_append] at this
    exact List.isPrefixOf_iff_prefix.mpr this
  · rw [if_neg hpre, if_neg ?_]
    intro hp
    refine hpre (List.isPrefixOf_iff_prefix.mpr ?_)
    have hp2 := List.isPrefixOf_iff_prefix.mp hp
    rw [show c :: (rest ++ ';' :: v) = (c :: rest) ++ ';' :: v from rfl] at hp2
    exact prefix_through_semi hs hp2

/-- Text appended after a semicolon separator does not change the top-level
step. -/
lemma stepTopLevel_append (c : Char) (rest v : List Char) (st : SplitState) :
    stepTopLevel c (rest ++ ';' :: v) st = stepTopLevel c rest st := by
  have hparse := parseDollarTag_append_semi (c :: rest) v
  simp only [List.cons_append] at hparse
  cases rest with
  | nil =>
    simp only [List.nil_append] at hparse
    simp only [stepTopLevel, List.nil_append, List.head?_cons, List.head?_nil,
      show decide (some ';' = some ('-' : Char)) = false from by decide,
      show decide ((none : Option Char) = some '-') = false from by decide,
      show decide (some ';' = some ('*' : Char)) = false from by decide,
      show decide ((none : Option Char) = some '*') = false from by decide,
      Bool.and_false, hparse]
  | cons r rs =>
    simp only [List.cons_append] at hparse
    simp only [stepTopLevel, List.cons_append, List.head?_cons, hparse]

/-- Text appended after a semicolon separator does not change a step of the
splitter, provided the stored dollar tag is semicolon-free. -/
lemma stepSplit_append (c : Char) (rest v : List Char) (st : SplitState)
    (hs : ';' ∉ st.dollarTag) :
    stepSplit c (rest ++ ';' :: v) st = stepSplit c rest st := by
  unfold stepSplit
  by_cases h1 : st.inLineComment
  · simp only [if_pos h1]
  · simp only [if_neg h1]
    by_cases h2 : 0 < st.blockCommentDepth
    · simp only [if_pos h2, stepBlockComment_append]
    · simp only [if_neg h2]
      by_cases h3 : st.inSingleQuote
      · simp only [if_pos h3, stepSingleQuote_append]
      · simp only [if_neg h3]
        by_cases h4 : st.inDoubleQuote
        · simp only [if_pos h4, stepDoubleQuote_append]
        · simp only [if_neg h4]
          by_cases h5 : st.dollarTag ≠ []
          · simp only [if_pos h5, stepDollarBody_append c rest v st hs]
          · simp only [if_neg h5, stepTopLevel_append]

/-- The splitter loop on an exhausted input emits the trimmed trailing
buffer, regardless of fuel. -/
lemma splitGoF_nil (f : Nat) (st : SplitState) (cur : List Char)
    (acc : List (List Char)) :
    splitGoF f [] st cur acc =
      if goTrimSpace cur = [] then acc else acc ++ [goTrimSpace cur] := by
  cases f <;> rfl

/-- The state scan of an exhausted input returns the state, regardless of
fuel. -/
lemma scanCF_nil (f : Nat) (st : SplitState) :
    scanCF f [] st = some st := by
  cases f <;> rfl

/-- One unfolding of the splitter loop on a non-empty input. -/
lemma splitGoF_cons (f : Nat) (c : Char) (rest : List Char) (st : SplitState)
    (cur : List Char) (acc : List (List Char)) :
    splitGoF (f + 1) (c :: rest) st cur acc =
      match stepSplit c rest st with
      | some (w, k, st2) => splitGoF f (rest.drop k) st2 (cur ++ w) acc
      | none => splitGoF f rest st []
          (if goTrimSpace cur = [] then acc else acc ++ [goTrimSpace cur]) := rfl

/-- One unfolding of the state scan on a non-empty input. -/
lemma scanCF_cons (f : Nat) (c : Char) (rest : List Char) (st : SplitState) :
    scanCF (f + 1) (c :: rest) st =
      match stepSplit c rest st with
      | some (_, k, st2) => scanCF f (rest.drop k) st2
      | none => none := rfl

/-- Fuel does not matter to the splitter loop once it covers the input
length. -/
lemma splitGoF_congr : ∀ (f1 f2 : Nat) (l : List Char) (st : SplitState)
    (cur : List Char) (acc : List (List Char)),
    l.length ≤ f1 → l.length ≤ f2 →
    splitGoF f1 l st cur acc = splitGoF f2 l st cur acc := by
  intro f1
  induction f1 with
  | zero =>
    intro f2 l st cur acc h1 _
    have : l = [] := List.length_eq_zero.mp (Nat.le_zero.mp h1)
    subst this
    rw [splitGoF_nil, splitGoF_nil]
  | succ g1 ih =>
    intro f2 l st cur acc h1 h2
    cases l with
    | nil => rw [splitGoF_nil, splitGoF_nil]
    | cons c rest =>
      obtain ⟨g2, hg2⟩ : ∃ g2, f2 = g2 + 1 := by
        cases f2 with
        | zero => simp at h2
        | succ g2 => exact ⟨g2, rfl⟩
      subst hg2
      show splitGoF (g1 + 1) (c :: rest) st cur acc =
        splitGoF (g2 + 1) (c :: rest) st cur acc
      unfold splitGoF
      cases hstep : stepSplit c rest st with
      | some out =>
        obtain ⟨w, k, st2⟩ := out
        have hlen : (rest.drop k).length ≤ g1 := by
          simp only [List.length_drop]
          simp only [List.length_cons] at h1
          omega
        have hlen2 : (rest.drop k).length ≤ g2 := by
          simp only [List.length_drop]
          simp only [List.length_cons] at h2
          omega
        exact ih g2 (rest.drop k) st2 (cur ++ w) acc hlen hlen2
      | none =>
        have hlen : rest.length ≤ g1 := by
          simp only [List.length_cons] at h1
          omega
        have hlen2 : rest.length ≤ g2 := by
          simp only [List.length_cons] at h2
          omega
        exact ih g2 rest st []
          (if goTrimSpace cur = [] then acc else acc ++ [goTrimSpace cur])
          hlen hlen2

/-- Composition: running the splitter over `s ++ t`, where a state-only scan
of `s` finishes in state `st2` without meeting a top-level semicolon and `t`
is empty or starts with a semicolon, is the same as appending `s` to the
buffer and continuing with `t` from `st2`. -/
lemma splitGoF_append : ∀ (n : Nat) (s : List Char), s.length ≤ n →
    ∀ (st st2 : SplitState), scanCF n s st = some st2 → ';' ∉ st.dollarTag →
    ∀ (t : List Char), (t = [] ∨ ∃ w2, t = ';' :: w2) →
    ∀ (cur : List Char) (acc : List (List Char)),
    splitGoF (s.length + t.length) (s ++ t) st cur acc =
      splitGoF t.length t st2 (cur ++ s) acc := by
  intro n
  induction n with
  | zero =>
    intro s hlen st st2 hscan _ t _ cur acc
    have : s = [] := List.length_eq_zero.mp (Nat.le_zero.mp hlen)
    subst this
    rw [scanCF_nil] at hscan
    obtain rfl : st = st2 := by simpa using hscan
    simp
  | succ n ih =>
    intro s hlen st st2 hscan hs t ht cur acc
    cases s with
    | nil =>
      rw [scanCF_nil] at hscan
      obtain rfl : st = st2 := by simpa using hscan
      simp
    | cons c ss =>
      have hunfold : scanCF (n + 1) (c :: ss) st =
          match stepSplit c ss st with
          | some (_, k, st2) => scanCF n (ss.drop k) st2
          | none => none := rfl
      rw [hunfold] at hscan
      cases hstep : stepSplit c ss st with
      | none => rw [hstep] at hscan; exact absurd hscan (by simp)
      | some out =>
        obtain ⟨w, k, st3⟩ := out
        rw [hstep] at hscan
        obtain ⟨hw, hk⟩ := stepSplit_some hstep
        have hstep2 : stepSplit c (ss ++ t) st = some (w, k, st3) := by
          rcases ht with rfl | ⟨w2, rfl⟩
          · rw [List.append_nil]; exact hstep
          · rw [stepSplit_append c ss w2 st hs]; exact hstep
        have hgoal1 : splitGoF ((c :: ss).length + t.length) ((c :: ss) ++ t)
            st cur acc =
            splitGoF (ss.length + t.length) ((ss ++ t).drop k) st3
              (cur ++ w) acc := by
          rw [show (c :: ss).length + t.length = (ss.length + t.length) + 1 by
            simp [List.length_cons]; omega]
          show splitGoF ((ss.length + t.length) + 1) (c :: (ss ++ t)) st cur acc = _
          rw [splitGoF_cons, hstep2]
        rw [hgoal1]
        have hscan2 : scanCF n (ss.drop k) st3 = some st2 := hscan
        rw [List.drop_append_of_le_length hk]
        have hcongr : splitGoF (ss.length + t.length) (ss.drop k ++ t) st3
            (cur ++ w) acc =
            splitGoF ((ss.drop k).length + t.length) (ss.drop k ++ t) st3
              (cur ++ w) acc := by
          apply splitGoF_congr <;> simp [List.length_append, List.length_drop]
        rw [hcongr]
        have hihlen : (ss.drop k).length ≤ n := by
          simp only [List.length_drop]
          simp only [List.length_cons] at hlen
          omega
        rw [ih (ss.drop k) hihlen st3 st2 hscan2 (stepSplit_tagOK hstep hs) t ht
          (cur ++ w) acc]
        rw [hw]
        rw [show (cur ++ c :: List.take k ss) ++ List.drop k ss =
          cur ++ c :: ss by
            rw [List.append_assoc]
            simp [List.cons_append, List.take_append_drop]]

/-- Go `strings.TrimSpace` is idempotent. -/
lemma goTrimSpace_idem (l : List Char) :
    goTrimSpace (goTrimSpace l) = goTrimSpace l := by
  have hTR : ∀ x : List Char, goTrimRight x = List.rdropWhile goIsSpace x :=
    fun _ => rfl
  have hTRidem : ∀ x : List Char, goTrimRight (goTrimRight x) = goTrimRight x := by
    intro x
    rw [hTR, hTR, List.rdropWhile_idempotent]
  have hTLidem : ∀ x : List Char, goTrimLeft (goTrimLeft x) = goTrimLeft x := by
    intro x
    unfold goTrimLeft
    rw [List.dropWhile_idempotent]
  have hTLTR : ∀ x : List Char, goTrimLeft (goTrimRight (goTrimLeft x)) =
      goTrimRight (goTrimLeft x) := by
    intro x
    have hpre : goTrimRight (goTrimLeft x) <+: goTrimLeft x := by
      rw [hTR]
      exact List.rdropWhile_prefix goIsSpace (goTrimLeft x)
    cases hcase : goTrimRight (goTrimLeft x) with
    | nil => rfl
    | cons a ys =>
      have hhead : (goTrimLeft x).head? = some a := by
        rw [hcase] at hpre
        obtain ⟨r, hr⟩ := hpre
        rw [← hr]
        rfl
      have hnot : goIsSpace a = false := by
        unfold goTrimLeft at hhead
        cases hdcase : List.dropWhile goIsSpace x with
        | nil => rw [hdcase] at hhead; exact absurd hhead (by simp)
        | cons b zs =>
          have h2 := List.head_dropWhile_not goIsSpace x (by simp [hdcase])
          have h3 : (List.dropWhile goIsSpace x).head (by simp [hdcase]) = a := by
            rw [hdcase] at hhead
            simp only [hdcase, List.head_cons]
            simpa using hhead
          rw [h3] at h2
          exact h2
      unfold goTrimLeft
      rw [List.dropWhile_cons_of_neg (by simp [hnot])]
  calc goTrimSpace (goTrimSpace l)
      = goTrimRight (goTrimLeft (goTrimRight (goTrimLeft l))) := rfl
    _ = goTrimRight (goTrimRight (goTrimLeft l)) := by rw [hTLTR]
    _ = goTrimRight (goTrimLeft l) := hTRidem _
    _ = goTrimSpace l := rfl

/-- Every statement returned by the splitter loop is already trimmed and
non-empty (assuming the same holds of the accumulator). -/
lemma splitGoF_mem : ∀ (f : Nat) (l : List Char) (st : SplitState)
    (cur : List Char) (acc : List (List Char)),
    (∀ x ∈ acc, goTrimSpace x = x ∧ x ≠ []) →
    ∀ s ∈ splitGoF f l st cur acc, goTrimSpace s = s ∧ s ≠ [] := by
  have hemit : ∀ (cur : List Char) (acc : List (List Char)),
      (∀ x ∈ acc, goTrimSpace x = x ∧ x ≠ []) →
      ∀ x ∈ (if goTrimSpace cur = [] then acc else acc ++ [goTrimSpace cur]),
        goTrimSpace x = x ∧ x ≠ [] := by
    intro cur acc hacc x hx
    by_cases hc : goTrimSpace cur = []
    · rw [if_pos hc] at hx
      exact hacc x hx
    · rw [if_neg hc] at hx
      rcases List.mem_append.mp hx with hmem | hmem
      · exact hacc x hmem
      · obtain rfl := List.mem_singleton.mp hmem
        exact ⟨goTrimSpace_idem cur, hc⟩
  intro f
  induction f with
  | zero =>
    intro l st cur acc hacc s hs
    cases l with
    | nil => exact hemit cur acc hacc s (by simpa [splitGoF_nil] using hs)
    | cons c rest => exact hemit cur acc hacc s hs
  | succ g ih =>
    intro l st cur acc hacc s hs
    cases l with
    | nil => exact hemit cur acc hacc s (by simpa [splitGoF_nil] using hs)
    | cons c rest =>
      rw [splitGoF_cons] at hs
      cases hstep : stepSplit c rest st with
      | some out =>
        obtain ⟨w, k, st2⟩ := out
        rw [hstep] at hs
        exact ih (rest.drop k) st2 (cur ++ w) acc hacc s hs
      | none =>
        rw [hstep] at hs
        exact ih rest st []
          (if goTrimSpace cur = [] then acc else acc ++ [goTrimSpace cur])
          (hemit cur acc hacc) s hs

/-- Splitting the semicolon-join of well-formed statements recovers exactly
those statements.  A statement is well formed when it is trimmed, non-empty,
and its own scan ends in the top-level state without meeting a top-level
semicolon. -/
lemma splitGo_joinSemi : ∀ (ss : List (List Char)) (acc : List (List Char)),
    (∀ s ∈ ss, scanC s SplitState.initial = some SplitState.initial ∧
      goTrimSpace s = s ∧ s ≠ []) →
    splitGo (joinSemi ss) SplitState.initial [] acc = acc ++ ss := by
  intro ss
  induction ss with
  | nil =>
    intro acc _
    show splitGoF 0 [] SplitState.initial [] acc = acc ++ []
    rw [splitGoF_nil]
    rw [if_pos (by rfl)]
    simp
  | cons s ss2 ih =>
    intro acc hss
    obtain ⟨hscan, htrim, hne⟩ := hss s (List.mem_cons_self s ss2)
    cases ss2 with
    | nil =>
      show splitGo (joinSemi [s]) SplitState.initial [] acc = acc ++ [s]
      have : joinSemi [s] = s ++ [] := by simp [joinSemi]
      rw [this]
      have happ := splitGoF_append s.length s le_rfl SplitState.initial
        SplitState.initial hscan (by simp [SplitState.initial]) [] (Or.inl rfl)
        [] acc
      unfold splitGo
      rw [show (s ++ ([] : List Char)).length = s.length + ([] : List Char).length
        by simp]
      rw [happ]
      rw [show ([] : List Char).length = 0 from rfl, splitGoF_nil]
      rw [List.nil_append, htrim, if_neg hne]
    | cons s2 ss3 =>
      have hjoin : joinSemi (s :: s2 :: ss3) = s ++ ';' :: joinSemi (s2 :: ss3) :=
        rfl
      rw [hjoin]
      set J := joinSemi (s2 :: ss3) with hJ
      have happ := splitGoF_append s.length s le_rfl SplitState.initial
        SplitState.initial hscan (by simp [SplitState.initial]) (';' :: J)
        (Or.inr ⟨J, rfl⟩) [] acc
      unfold splitGo
      rw [show (s ++ ';' :: J).length = s.length + (';' :: J).length by simp]
      rw [happ]
      rw [show (';' :: J).length = J.length + 1 by simp]
      rw [splitGoF_cons, stepSplit_semi_top]
      rw [List.nil_append, htrim, if_neg hne]
      have := ih (acc ++ [s]) (fun x hx => hss x (List.mem_cons_of_mem s hx))
      unfold splitGo at this
      rw [this]
      simp

/-- Hook SQL text of the specification's hooks-and-templating scenario: the
`DO $fn$ … $fn$; SELECT 1;` input with a semicolon inside a nested block
comment (the comment sits inside the second statement). -/
def c1HookInput : List Char :=
  ("DO $fn$ BEGIN PERFORM 1; PERFORM 2; END; $fn$;" ++
   " /* nested /* ; */ comment */ SELECT 1;").toList

/-- Claim C1: the hook statement splitter treats line comments, arbitrarily
nested block comments, quoted literals/identifiers and dollar-quoted blocks
as opaque — a semicolon there is copied into the current statement with the
scanner state unchanged (second conjunct); a top-level semicolon terminates
the statement, which is emitted after trimming when non-empty (third
conjunct); a trailing non-empty buffer is emitted without a final semicolon
(fourth conjunct); and the `DO $fn$ … $fn$; SELECT 1;` input with a semicolon
in a nested block comment splits into exactly two statements (first
conjunct). -/
theorem C1_statement_splitter :
    (splitStatements c1HookInput =
      ["DO $fn$ BEGIN PERFORM 1; PERFORM 2; END; $fn$".toList,
       "/* nested /* ; */ comment */ SELECT 1".toList]) ∧
    (∀ (st : SplitState) (l cur : List Char) (acc : List (List Char)),
      (st.inLineComment = true ∨ 0 < st.blockCommentDepth ∨
        st.inSingleQuote = true ∨ st.inDoubleQuote = true ∨ st.dollarTag ≠ []) →
      ';' ∉ st.dollarTag →
      splitGo (';' :: l) st cur acc = splitGo l st (cur ++ [';']) acc) ∧
    (∀ (l cur : List Char) (acc : List (List Char)),
      splitGo (';' :: l) SplitState.initial cur acc =
        splitGo l SplitState.initial []
          (if goTrimSpace cur = [] then acc else acc ++ [goTrimSpace cur])) ∧
    (∀ (st : SplitState) (cur : List Char) (acc : List (List Char)),
      splitGo [] st cur acc =
        if goTrimSpace cur = [] then acc else acc ++ [goTrimSpace cur]) := by
  refine ⟨by decide, ?_, ?_, ?_⟩
  · intro st l cur acc hn hs
    show splitGoF (l.length + 1) (';' :: l) st cur acc = _
    rw [splitGoF_cons, stepSplit_semi_nonTop hn hs]
    rfl
  · intro l cur acc
    show splitGoF (l.length + 1) (';' :: l) SplitState.initial cur acc = _
    rw [splitGoF_cons, stepSplit_semi_top]
    rfl
  · intro st cur acc
    exact splitGoF_nil _ st cur acc

/-- Witness for C1: the context conjuncts applied at concrete inputs — a
semicolon inside a single-quoted literal extends the buffer, a top-level
semicolon emits the trimmed buffer, and a trailing buffer is emitted. -/
theorem C1_statement_splitter_witness :
    splitGo [';', 'x'] ⟨true, false, false, 0, []⟩ ['a'] [] =
      splitGo ['x'] ⟨true, false, false, 0, []⟩ ['a', ';'] [] ∧
    splitGo [';'] SplitState.initial ['a'] [] =
      splitGo [] SplitState.initial [] [['a']] ∧
    splitGo [] SplitState.initial ['a'] [] = [['a']] := by
  refine ⟨?_, ?_, ?_⟩
  · exact C1_statement_splitter.2.1 ⟨true, false, false, 0, []⟩ ['x'] ['a'] []
      (Or.inr (Or.inr (Or.inl rfl))) (by decide)
  · have := C1_statement_splitter.2.2.1 [] ['a'] []
    rw [this, if_neg (by decide)]
    decide
  · have := C1_statement_splitter.2.2.2 SplitState.initial ['a'] []
    rw [this, if_neg (by decide)]
    decide

/-- Input showing that re-splitting the semicolon-join is not the identity
in general: the first statement ends in a line comment that was closed by a
newline, and the newline is lost to trimming and joining. -/
def c9Input : List Char := "SELECT 1 --x\n; SELECT 2".toList

/-- Counterexample to claim C9 as stated: for this input (which scans without
error), joining the split result with `;` and re-splitting merges everything
into one statement, so the splitter is not idempotent. -/
theorem C9_resplit_counterexample :
    splitStatements (joinSemi (splitStatements c9Input)) ≠
      splitStatements c9Input := by decide

/-- Claim C9, amended: the statement splitter is idempotent under rejoining
with `;` for every input whose emitted statements each scan from the initial
state back to the initial state without meeting a top-level semicolon (in
particular, no emitted statement may end inside a still-open line comment,
which is what the counterexample exploits). -/
theorem C9_resplit_amended (l : List Char)
    (h : ∀ s ∈ splitStatements l,
      scanC s SplitState.initial = some SplitState.initial) :
    splitStatements (joinSemi (splitStatements l)) = splitStatements l := by
  have hmem : ∀ s ∈ splitStatements l, goTrimSpace s = s ∧ s ≠ [] :=
    splitGoF_mem l.length l SplitState.initial [] [] (by simp)
  have hjoin := splitGo_joinSemi (splitStatements l) []
    (fun s hs => ⟨h s hs, (hmem s hs).1, (hmem s hs).2⟩)
  simpa [splitStatements] using hjoin

/-- Witness for C9 (amended): a two-statement input whose statements are
well formed; re-splitting the join reproduces the split. -/
theorem C9_resplit_amended_witness :
    splitStatements (joinSemi (splitStatements ("SELECT 1; SELECT 2".toList))) =
      splitStatements ("SELECT 1; SELECT 2".toList) :=
  C9_resplit_amended ("SELECT 1; SELECT 2".toList) (by decide)

/-- Go `strings.ReplaceAll v SQ (SQ ++ SQ)` as used by `pgLiteral` (ddl.go):
double every single quote (a single-character pattern makes `ReplaceAll` a
per-character map). -/
def goDoubleSingleQuotes : List Char → List Char
  | [] => []
  | c :: rest =>
    if c = squote then squote :: squote :: goDoubleSingleQuotes rest
    else c :: goDoubleSingleQuotes rest

/-- `pgLiteral` from ddl.go: wrap in single quotes, doubling internal single
quotes. -/
def pgLiteral (v : List Char) : List Char :=
  squote :: (goDoubleSingleQuotes v ++ [squote])

/-- Go `strings.ReplaceAll inner (SQ ++ SQ) SQ` as used by
`mysqlDefaultUnquote` (ddl.go): collapse doubled single quotes, scanning
left to right without overlap. -/
def goCollapseSingleQuotes : List Char → List Char
  | c :: d :: rest =>
    if c = squote ∧ d = squote then squote :: goCollapseSingleQuotes rest
    else c :: goCollapseSingleQuotes (d :: rest)
  | l => l

/-- `mysqlDefaultUnquote` from ddl.go: if the value is wrapped in single
quotes, strip them and undouble the inner quotes; otherwise return it
unchanged. -/
def mysqlDefaultUnquote (v : List Char) : List Char :=
  if 2 ≤ v.length ∧ v.head? = some squote ∧ v.getLast? = some squote then
    goCollapseSingleQuotes ((v.drop 1).dropLast)
  else v

/-- Description of quote doubling taken from the claim wording: each single
quote becomes two, all other characters stay. -/
def specDoubledQuotes (v : List Char) : List Char :=
  v.flatMap (fun c => if c = squote then [c, c] else [c])

/-- Doubling per the code agrees with the claim wording. -/
lemma goDoubleSingleQuotes_eq (v : List Char) :
    goDoubleSingleQuotes v = specDoubledQuotes v := by
  induction v with
  | nil => rfl
  | cons c rest ih =>
    by_cases hc : c = squote
    · subst hc
      simp [goDoubleSingleQuotes, specDoubledQuotes, ih]
    · simp [goDoubleSingleQuotes, specDoubledQuotes, hc, ih]

/-- Collapsing after a non-quote head steps over the head. -/
lemma goCollapseSingleQuotes_cons_ne {c : Char} (hc : c ≠ squote)
    (l : List Char) :
    goCollapseSingleQuotes (c :: l) = c :: goCollapseSingleQuotes l := by
  cases l with
  | nil => rfl
  | cons d rest =>
    conv_lhs => unfold goCollapseSingleQuotes
    rw [if_neg (by intro hcd; exact hc hcd.1)]

/-- Collapsing doubled quotes undoes doubling. -/
lemma goCollapse_goDouble (v : List Char) :
    goCollapseSingleQuotes (goDoubleSingleQuotes v) = v := by
  induction v with
  | nil => rfl
  | cons c rest ih =>
    by_cases hc : c = squote
    · subst hc
      show goCollapseSingleQuotes
        (squote :: squote :: goDoubleSingleQuotes rest) = _
      unfold goCollapseSingleQuotes
      rw [if_pos ⟨rfl, rfl⟩, ih]
    · show goCollapseSingleQuotes ((if c = squote then
        squote :: squote :: goDoubleSingleQuotes rest
        else c :: goDoubleSingleQuotes rest)) = _
      rw [if_neg hc, goCollapseSingleQuotes_cons_ne hc, ih]

/-- Claim C10: `pgLiteral` wraps its argument in single quotes doubling every
internal single quote, and `mysqlDefaultUnquote` undoes it exactly, for every
string — the literal quote/unquote pair round-trips losslessly. -/
theorem C10_literal_roundtrip :
    (∀ v : List Char, pgLiteral v = squote :: (specDoubledQuotes v ++ [squote])) ∧
    (∀ v : List Char, mysqlDefaultUnquote (pgLiteral v) = v) := by
  constructor
  · intro v
    unfold pgLiteral
    rw [goDoubleSingleQuotes_eq]
  · intro v
    unfold mysqlDefaultUnquote pgLiteral
    rw [if_pos ?side]
    case side =>
      refine ⟨?_, rfl, ?_⟩
      · simp
      · rw [show squote :: (goDoubleSingleQuotes v ++ [squote]) =
          (squote :: goDoubleSingleQuotes v) ++ [squote] from rfl]
        rw [List.getLast?_concat]
    rw [show (squote :: (goDoubleSingleQuotes v ++ [squote])).drop 1 =
      goDoubleSingleQuotes v ++ [squote] from rfl]
    rw [List.dropLast_concat, goCollapse_goDouble]

/-- `pgReservedWords` from schema.go: the enumerated PostgreSQL reserved
words that must be quoted as identifiers. -/
def pgReservedWords : List (List Char) :=
  ["all".toList, "analyse".toList, "analyze".toList, "and".toList,
   "any".toList, "array".toList, "as".toList, "asc".toList,
   "authorization".toList, "between".toList, "binary".toList,
   "both".toList, "case".toList, "cast".toList, "check".toList,
   "collate".toList, "column".toList, "constraint".toList, "create".toList,
   "cross".toList, "current_date".toList, "current_role".toList,
   "current_time".toList, "current_timestamp".toList,
   "current_user".toList, "default".toList, "deferrable".toList,
   "desc".toList, "distinct".toList, "do".toList, "else".toList,
   "end".toList, "except".toList, "false".toList, "fetch".toList,
   "for".toList, "foreign".toList, "freeze".toList, "from".toList,
   "full".toList, "grant".toList, "group".toList, "having".toList,
   "ilike".toList, "in".toList, "initially".toList, "inner".toList,
   "intersect".toList, "into".toList, "is".toList, "isnull".toList,
   "join".toList, "lateral".toList, "leading".toList, "left".toList,
   "like".toList, "limit".toList, "localtime".toList,
   "localtimestamp".toList, "natural".toList, "not".toList,
   "notnull".toList, "null".toList, "offset".toList, "on".toList,
   "only".toList, "or".toList, "order".toList, "outer".toList,
   "overlaps".toList, "placing".toList, "primary".toList,
   "references".toList, "returning".toList, "right".toList,
   "select".toList, "session_user".toList, "similar".toList, "some".toList,
   "symmetric".toList, "table".toList, "then".toList, "to".toList,
   "trailing".toList, "true".toList, "union".toList, "unique".toList,
   "user".toList, "using".toList, "variadic".toList, "verbose".toList,
   "when".toList, "where".toList, "window".toList, "with".toList]

/-- Index-carrying loop of `pgNeedsQuoting` (schema.go): lowercase letters
and underscores are always allowed; digits and dollar signs only after the
first character; anything else forces quoting. -/
def pgNeedsQuotingAux : List Char → Nat → Bool
  | [], _ => false
  | c :: rest, i =>
    if ('a' ≤ c && c ≤ 'z') || c = '_' then pgNeedsQuotingAux rest (i + 1)
    else if 0 < i && (('0' ≤ c && c ≤ '9') || c = '$') then
      pgNeedsQuotingAux rest (i + 1)
    else true

/-- `pgNeedsQuoting` from schema.go. -/
def pgNeedsQuoting (name : List Char) : Bool :=
  pgNeedsQuotingAux name 0

/-- `pgIdent` from schema.go: quote reserved words and names with characters
invalid in unquoted identifiers.  Note that the Go code wraps the name in
double quotes without doubling internal double quotes. -/
def pgIdent (name : List Char) : List Char :=
  if pgReservedWords.contains name || pgNeedsQuoting name then
    dquote :: (name ++ [dquote])
  else name

/-- Character class of the claim wording: lowercase ASCII letter or
underscore. -/
def isLowerUnd (c : Char) : Bool :=
  ('a' ≤ c && c ≤ 'z') || c = '_'

/-- Character class of the claim wording: ASCII digit. -/
def isDigitA (c : Char) : Bool :=
  '0' ≤ c && c ≤ '9'

/-- Shape of names the claim says stay unquoted: only lowercase ASCII
letters and underscores, plus optionally digits or `$` after the first
character. -/
def specUnquotedShape (l : List Char) : Bool :=
  match l with
  | [] => true
  | c :: rest => isLowerUnd c && rest.all (fun d => isLowerUnd d || isDigitA d || d = '$')

/-- Parsing an emitted identifier back (standard PostgreSQL lexing, modelled
for the round-trip property): body of a double-quoted identifier, with `""`
undoubled, requiring the closing quote to end the input. -/
def pgUnquoteIdentBody : List Char → Option (List Char)
  | [] => none
  | c :: rest =>
    if c = dquote then
      match rest with
      | [] => some []
      | d :: rest2 =>
        if d = dquote then (pgUnquoteIdentBody rest2).map (fun x => dquote :: x)
        else none
    else (pgUnquoteIdentBody rest).map (fun x => c :: x)

/-- Parsing an emitted identifier back as an identifier: quoted identifiers
are unquoted, anything else is taken verbatim. -/
def pgParseIdent (l : List Char) : Option (List Char) :=
  match l with
  | c :: rest => if c = dquote then pgUnquoteIdentBody rest else some l
  | [] => some []

/-- The index value only matters through positivity: for positive indexes the
loop accepts exactly the later-position character class. -/
lemma pgNeedsQuotingAux_pos : ∀ (l : List Char) (i : Nat), 0 < i →
    pgNeedsQuotingAux l i =
      !(l.all (fun d => isLowerUnd d || isDigitA d || d = '$')) := by
  intro l
  induction l with
  | nil => intro i _; rfl
  | cons c rest ih =>
    intro i hi
    have hstep : pgNeedsQuotingAux (c :: rest) i =
        (if ('a' ≤ c && c ≤ 'z') || c = '_' then pgNeedsQuotingAux rest (i + 1)
        else if 0 < i && (('0' ≤ c && c ≤ '9') || c = '$') then
          pgNeedsQuotingAux rest (i + 1)
        else true) := rfl
    rw [hstep]
    by_cases h1 : (('a' ≤ c && c ≤ 'z') || c = '_') = true
    · rw [if_pos h1, ih (i + 1) (by omega)]
      simp [List.all_cons, isLowerUnd, isDigitA, h1]
    · have h1f := Bool.eq_false_iff.mpr h1
      rw [if_neg h1]
      by_cases h2 : (('0' ≤ c && c ≤ '9') || c = '$') = true
      · rw [if_pos (by simp [h2, hi]), ih (i + 1) (by omega)]
        simp [List.all_cons, isLowerUnd, isDigitA, h1f, h2]
      · have h2f := Bool.eq_false_iff.mpr h2
        rw [if_neg (by simp [h2f])]
        simp [List.all_cons, isLowerUnd, isDigitA, h1f, h2f]

/-- `pgNeedsQuoting` computes exactly the negation of the claim wording
shape. -/
lemma pgNeedsQuoting_spec (l : List Char) :
    pgNeedsQuoting l = !(specUnquotedShape l) := by
  cases l with
  | nil => rfl
  | cons c rest =>
    have hstep : pgNeedsQuoting (c :: rest) =
        (if ('a' ≤ c && c ≤ 'z') || c = '_' then pgNeedsQuotingAux rest 1
        else if 0 < 0 && (('0' ≤ c && c ≤ '9') || c = '$') then
          pgNeedsQuotingAux rest 1
        else true) := rfl
    rw [hstep]
    by_cases h1 : (('a' ≤ c && c ≤ 'z') || c = '_') = true
    · rw [if_pos h1, pgNeedsQuotingAux_pos rest 1 (by omega)]
      simp [specUnquotedShape, isLowerUnd, isDigitA, h1]
    · have h1f := Bool.eq_false_iff.mpr h1
      rw [if_neg h1, if_neg (by simp)]
      simp [specUnquotedShape, isLowerUnd, h1f]

/-- Unquoting the body of a quoted identifier whose name contains no double
quote recovers the name. -/
lemma pgUnquoteIdentBody_append {name : List Char} (h : dquote ∉ name) :
    pgUnquoteIdentBody (name ++ [dquote]) = some name := by
  induction name with
  | nil => rfl
  | cons c rest ih =>
    have hc : c ≠ dquote := fun hcon => h (hcon ▸ List.mem_cons_self c rest)
    have hrest : dquote ∉ rest := fun hm => h (List.mem_cons_of_mem c hm)
    rw [List.cons_append]
    conv_lhs => unfold pgUnquoteIdentBody
    rw [if_neg hc, ih hrest]
    rfl

/-- Counterexample to claim C3 as stated: for the name `a"b` the code wraps
without doubling the internal double quote, so the emitted identifier is not
the claimed doubled form and does not parse back to the original name. -/
theorem C3_pgident_counterexample :
    pgIdent ['a', dquote, 'b'] ≠
      [dquote, 'a', dquote, dquote, 'b', dquote] ∧
    pgParseIdent (pgIdent ['a', dquote, 'b']) ≠ some ['a', dquote, 'b'] := by
  refine ⟨by decide, by decide⟩

/-- Claim C3, amended: `pgIdent` returns the name unquoted exactly when it
matches the lowercase/underscore-then-digits-dollar shape and is not a
reserved word; otherwise it returns the name wrapped in double quotes
WITHOUT doubling internal double quotes; consequently parsing the emitted
identifier back yields the name for every name that contains no double-quote
character (rather than for every name). -/
theorem C3_pgident_amended :
    (∀ name : List Char, pgIdent name = name ↔
      (specUnquotedShape name = true ∧ name ∉ pgReservedWords)) ∧
    (∀ name : List Char,
      ¬(specUnquotedShape name = true ∧ name ∉ pgReservedWords) →
      pgIdent name = dquote :: (name ++ [dquote])) ∧
    (∀ name : List Char, dquote ∉ name →
      pgParseIdent (pgIdent name) = some name) := by
  have hcm : ∀ name : List Char,
      pgReservedWords.contains name = true ↔ name ∈ pgReservedWords :=
    fun _ => List.elem_iff
  have hcond : ∀ name : List Char,
      (pgReservedWords.contains name || pgNeedsQuoting name) = false ↔
      (specUnquotedShape name = true ∧ name ∉ pgReservedWords) := by
    intro name
    rw [Bool.or_eq_false_iff]
    constructor
    · rintro ⟨hres, hneed⟩
      refine ⟨?_, ?_⟩
      · rw [pgNeedsQuoting_spec] at hneed
        simpa using hneed
      · intro hmem
        rw [Bool.eq_false_iff] at hres
        exact hres ((hcm name).mpr hmem)
    · rintro ⟨hshape, hmem⟩
      refine ⟨?_, ?_⟩
      · rw [Bool.eq_false_iff]
        intro hcon
        exact hmem ((hcm name).mp hcon)
      · rw [pgNeedsQuoting_spec, hshape]
        rfl
  have hquoted : ∀ name : List Char,
      ¬(specUnquotedShape name = true ∧ name ∉ pgReservedWords) →
      pgIdent name = dquote :: (name ++ [dquote]) := by
    intro name hno
    have hb : (pgReservedWords.contains name || pgNeedsQuoting name) = true := by
      by_cases hb2 : (pgReservedWords.contains name || pgNeedsQuoting name) = true
      · exact hb2
      · exact absurd ((hcond name).mp (Bool.eq_false_iff.mpr hb2)) hno
    unfold pgIdent
    rw [if_pos hb]
  have hunq : ∀ name : List Char, pgIdent name = name ↔
      (specUnquotedShape name = true ∧ name ∉ pgReservedWords) := by
    intro name
    constructor
    · intro heq
      by_cases hb : (pgReservedWords.contains name || pgNeedsQuoting name) = true
      · exfalso
        unfold pgIdent at heq
        rw [if_pos hb] at heq
        have := congrArg List.length heq
        simp at this
        omega
      · exact (hcond name).mp (Bool.eq_false_iff.mpr hb)
    · intro hok
      have hfalse := (hcond name).mpr hok
      unfold pgIdent
      rw [if_neg (by rw [hfalse]; simp)]
  refine ⟨hunq, hquoted, ?_⟩
  intro name hnq
  by_cases hok : specUnquotedShape name = true ∧ name ∉ pgReservedWords
  · rw [(hunq name).mpr hok]
    cases hn : name with
    | nil => rfl
    | cons c rest =>
      have hc : c ≠ dquote := by
        rw [hn] at hok
        have := hok.1
        simp only [specUnquotedShape, Bool.and_eq_true] at this
        intro hcon
        subst hcon
        have := this.1
        rw [show isLowerUnd dquote = false from by decide] at this
        exact Bool.false_ne_true this
      show (if c = dquote then _ else some (c :: rest)) = _
      rw [if_neg hc]
  · rw [hquoted name hok]
    show (if dquote = dquote then pgUnquoteIdentBody (name ++ [dquote])
      else some (dquote :: (name ++ [dquote]))) = some name
    rw [if_pos rfl, pgUnquoteIdentBody_append hnq]

/-- Witness for C3 (amended): the reserved word `user` is wrapped in quotes,
the plain name `users` stays unquoted, and a quoted mixed-case name parses
back to itself. -/
theorem C3_pgident_amended_witness :
    pgIdent "user".toList = dquote :: ("user".toList ++ [dquote]) ∧
    pgIdent "users".toList = "users".toList ∧
    pgParseIdent (pgIdent "Upper".toList) = some ("Upper".toList) := by
  refine ⟨?_, ?_, ?_⟩
  · exact C3_pgident_amended.2.1 "user".toList (by decide)
  · exact (C3_pgident_amended.1 "users".toList).mpr (by decide)
  · exact C3_pgident_amended.2.2 "Upper".toList (by decide)

/-- ASCII range of Go `unicode.IsUpper` (inputs of interest are ASCII). -/
def isUpperA (c : Char) : Bool := 'A' ≤ c && c ≤ 'Z'

/-- ASCII range of Go `unicode.IsLower`. -/
def isLowerA (c : Char) : Bool := 'a' ≤ c && c ≤ 'z'

/-- ASCII `unicode.ToLower` truncated to a byte, as the Go code does. -/
def toLowerA (c : Char) : Char :=
  if isUpperA c then Char.ofNat (c.toNat + 32) else c

/-- Loop of `toSnakeCase` (schema.go, acronym-aware version), carrying the
previous rune (`runes[i-1]`; `none` at position 0) and looking one rune
ahead (`runes[i+1]`). -/
def toSnakeCaseAux : Option Char → List Char → List Char
  | _, [] => []
  | p, c :: rest =>
    if isUpperA c then
      (match p with
        | none => []
        | some q =>
          if isLowerA q || isDigitA q then ['_']
          else if isUpperA q && (match rest.head? with
              | some n => isLowerA n
              | none => false) then ['_']
          else []) ++ (toLowerA c :: toSnakeCaseAux (some c) rest)
    else c :: toSnakeCaseAux (some c) rest

/-- `toSnakeCase` from schema.go: camelCase/PascalCase to snake_case with
acronym runs. -/
def toSnakeCase (s : List Char) : List Char := toSnakeCaseAux none s

/-- Separator rule as the specification words it: a separator is inserted
before an uppercase letter after a lowercase letter or digit, and before the
last uppercase letter of an uppercase run whose next character is
lowercase. -/
def snakeSep (p : Option Char) (c : Char) (n : Option Char) : Bool :=
  isUpperA c && (match p with
    | none => false
    | some q => (isLowerA q || isDigitA q) ||
        (isUpperA q && (match n with | some m => isLowerA m | none => false)))

/-- Snake-casing as the specification words it: walk the positions, insert
`_` where the separator rule fires, then lowercase the whole string. -/
def specSnakeCase (s : List Char) : List Char :=
  ((List.range s.length).flatMap fun i =>
    (if snakeSep (if i = 0 then none else s[i - 1]?) (s.getD i ' ') s[i + 1]?
      then ['_'] else []) ++ [s.getD i ' ']).map toLowerA

/-- Congruence for `flatMap` over pointwise-equal functions. -/
lemma flatMap_congr {α β : Type} (l : List α) (f g : α → List β)
    (h : ∀ x ∈ l, f x = g x) : l.flatMap f = l.flatMap g := by
  induction l with
  | nil => rfl
  | cons a r ih =>
    rw [List.flatMap_cons, List.flatMap_cons, h a (List.mem_cons_self a r),
      ih (fun x hx => h x (List.mem_cons_of_mem a hx))]

/-- One step of the snake-case loop, phrased with the separator rule. -/
lemma toSnakeCaseAux_cons (p : Option Char) (c : Char) (rest : List Char) :
    toSnakeCaseAux p (c :: rest) =
      (if snakeSep p c rest.head? then ['_'] else []) ++
        (toLowerA c :: toSnakeCaseAux (some c) rest) := by
  cases p with
  | none =>
    by_cases hu : isUpperA c = true <;>
      simp [toSnakeCaseAux, snakeSep, hu, toLowerA]
  | some q =>
    by_cases hu : isUpperA c = true
    · by_cases h1 : (isLowerA q || isDigitA q) = true
      · simp [toSnakeCaseAux, snakeSep, hu, h1]
      · by_cases h2 : (isUpperA q && (match rest.head? with
            | some m => isLowerA m
            | none => false)) = true
        · simp [toSnakeCaseAux, snakeSep, hu, Bool.eq_false_iff.mpr h1, h2]
        · simp [toSnakeCaseAux, snakeSep, hu, Bool.eq_false_iff.mpr h1,
            Bool.eq_false_iff.mpr h2]
    · simp [toSnakeCaseAux, snakeSep, Bool.eq_false_iff.mpr hu, toLowerA]

/-- The snake-case loop computes the specification-worded positional
description, for any carried previous character. -/
lemma toSnakeCaseAux_spec : ∀ (l : List Char) (p : Option Char),
    toSnakeCaseAux p l =
      ((List.range l.length).flatMap fun i =>
        (if snakeSep (if i = 0 then p else l[i - 1]?) (l.getD i ' ')
            l[i + 1]? then ['_'] else []) ++ [l.getD i ' ']).map toLowerA := by
  intro l
  induction l with
  | nil => intro p; rfl
  | cons c rest ih =>
    intro p
    rw [toSnakeCaseAux_cons, ih (some c)]
    rw [show (c :: rest).length = rest.length + 1 from rfl,
      List.range_succ_eq_map, List.flatMap_cons, List.flatMap_map,
      List.map_append]
    have hzero : ((if snakeSep (if 0 = 0 then p else (c :: rest)[0 - 1]?)
        ((c :: rest).getD 0 ' ') (c :: rest)[0 + 1]? then ['_'] else []) ++
        [(c :: rest).getD 0 ' ']).map toLowerA =
        (if snakeSep p c rest.head? then ['_'] else []) ++ [toLowerA c] := by
      rw [if_pos rfl]
      rw [show (c :: rest).getD 0 ' ' = c from rfl]
      rw [show (c :: rest)[0 + 1]? = rest[0]? from List.getElem?_cons_succ]
      rw [← List.head?_eq_getElem?]
      by_cases hsep : snakeSep p c rest.head? = true
      · rw [if_pos hsep]
        simp [show toLowerA ('_' : Char) = '_' from by decide]
      · rw [if_neg hsep]
        simp
    rw [hzero]
    have hshift : ((List.range rest.length).flatMap fun i =>
        (if snakeSep (if Nat.succ i = 0 then p else (c :: rest)[Nat.succ i - 1]?)
            ((c :: rest).getD (Nat.succ i) ' ') (c :: rest)[Nat.succ i + 1]?
          then ['_'] else []) ++ [(c :: rest).getD (Nat.succ i) ' ']) =
        ((List.range rest.length).flatMap fun i =>
        (if snakeSep (if i = 0 then some c else rest[i - 1]?) (rest.getD i ' ')
            rest[i + 1]? then ['_'] else []) ++ [rest.getD i ' ']) := by
      apply flatMap_congr
      intro i _
      have h1 : (if Nat.succ i = 0 then p else (c :: rest)[Nat.succ i - 1]?) =
          (if i = 0 then some c else rest[i - 1]?) := by
        rw [if_neg (by omega)]
        cases i with
        | zero => simp
        | succ j =>
          rw [if_neg (by omega)]
          rw [show Nat.succ (Nat.succ j) - 1 = j + 1 from rfl]
          rw [show Nat.succ j - 1 = j from rfl]
          exact List.getElem?_cons_succ
      have h2 : (c :: rest).getD (Nat.succ i) ' ' = rest.getD i ' ' := by
        simp [List.getD]
      have h3 : (c :: rest)[Nat.succ i + 1]? = rest[i + 1]? :=
        List.getElem?_cons_succ
      rw [h1, h2, h3]
    rw [hshift]
    simp [List.append_assoc]

/-- Claim C7: the snake-case fold inserts an underscore at every transition
from a lowercase letter or digit to an uppercase letter and before the last
uppercase letter of an uppercase run followed by a lowercase letter, then
lowercases the whole string (first conjunct: equivalence with the positional
description of the specification); in particular `HTMLParser` becomes
`html_parser`, `nameASCII` becomes `name_ascii`, and `IP` becomes `ip`. -/
theorem C7_to_snake_case :
    (∀ s : List Char, toSnakeCase s = specSnakeCase s) ∧
    toSnakeCase ("HTMLParser".toList) = "html_parser".toList ∧
    toSnakeCase ("nameASCII".toList) = "name_ascii".toList ∧
    toSnakeCase ("IP".toList) = "ip".toList := by
  refine ⟨fun s => toSnakeCaseAux_spec s none, by decide, by decide, by decide⟩

/-- `TypeMappingConfig` from config.go (the fields consumed by the type
mappers; field order as declared in the Go struct). -/
structure TypeMappingConfig where
  tinyInt1AsBoolean : Bool
  binary16AsUUID : Bool
  datetimeAsTimestamptz : Bool
  jsonAsJSONB : Bool
  enumMode : String
  setMode : String
  widenUnsignedIntegers : Bool
  varcharAsText : Bool
  sanitizeJSONNullBytes : Bool
  unknownAsText : Bool
deriving DecidableEq, Repr

/-- `Index` from model.go. -/
structure Index where
  name : String
  sourceName : String
  columns : List String
  columnOrders : List String
  unique : Bool
  isPrimary : Bool
  type : String
  hasPrefix2 : Bool
  hasExpression : Bool
deriving DecidableEq, Repr

/-- `Column` from model.go (`Default` is spelled `defaultVal` because
`default` is reserved in Lean). -/
structure Column where
  sourceName : String
  pgName : String
  dataType : String
  columnType : String
  charMaxLen : Int
  precision : Int
  scale : Int
  nullable : Bool
  defaultVal : Option String
  extra : String
  ordinalPos : Int
deriving DecidableEq, Repr

/-- `ForeignKey` from model.go. -/
structure ForeignKey where
  name : String
  columns : List String
  refTable : String
  refPGTable : String
  refColumns : List String
  updateRule : String
  deleteRule : String
deriving DecidableEq, Repr

/-- `Table` from model.go. -/
structure Table where
  sourceName : String
  pgName : String
  columns : List Column
  primaryKey : Option Index
  indexes : List Index
  foreignKeys : List ForeignKey
deriving DecidableEq, Repr

/-- `Schema` from model.go. -/
structure Schema where
  tables : List Table
deriving DecidableEq, Repr

/-- Go `strings.Contains`. -/
def goContains (s sub : String) : Bool := decide (sub.data <:+: s.data)

/-- Go `strings.TrimSpace` on `String`. -/
def goTrimSpaceS (s : String) : String := String.mk (goTrimSpace s.data)

/-- Go `strings.EqualFold`, restricted to ASCII folding. -/
def goEqualFold (s t : String) : Bool :=
  s.data.map toLowerA = t.data.map toLowerA

/-- Go `fmt` `%q` verb, modelled for quote and backslash escaping (the only
escapes exercised here). -/
def goQuote (s : String) : String :=
  String.mk ('"' :: s.data.flatMap
    (fun c => if c = '"' || c = '\\' then ['\\', c] else [c]) ++ ['"'])

/-- `pgIdent` on `String` arguments. -/
def pgIdentS (name : String) : String := String.mk (pgIdent name.data)

/-- Go `strconv.ParseInt(s, 10, 64)`: optional sign, decimal digits,
64-bit range check. -/
def goParseInt64 (l : List Char) : Option Int :=
  let signed : Int × List Char :=
    match l with
    | '+' :: rest => (1, rest)
    | '-' :: rest => (-1, rest)
    | _ => (1, l)
  let digits := signed.2
  if digits = [] then none
  else if digits.all isDigitA then
    let n : Nat := digits.foldl (fun acc c => acc * 10 + (c.toNat - 48)) 0
    let v : Int := signed.1 * n
    if -(2 ^ 63) ≤ v ∧ v < 2 ^ 63 then some v else none
  else none

/-- `mysqlColumnTypeLength` from source_mysql.go: parse the declared length
`base(n)` out of a full column type. -/
def mysqlColumnTypeLength (columnType baseType : String) : Option Int :=
  let ct := (goTrimSpace columnType.data).map toLowerA
  let pfx := baseType.data ++ ['(']
  if pfx.isPrefixOf ct then
    let rest := ct.drop pfx.length
    if rest.dropWhile (fun c => c ≠ ')') = [] then none
    else goParseInt64 (goTrimSpace (rest.takeWhile (fun c => c ≠ ')')))
  else none

/-- `isMySQLTypeWithLength` from source_mysql.go. -/
def isMySQLTypeWithLength (col : Column) (baseType : String)
    (wantLength : Int) : Bool :=
  if col.dataType ≠ baseType then false
  else
    match mysqlColumnTypeLength col.columnType baseType with
    | some n => n = wantLength
    | none => goTrimSpaceS col.columnType = "" && col.precision = wantLength

/-- `isBinary16Column` from source_mysql.go. -/
def isBinary16Column (col : Column) : Bool :=
  isMySQLTypeWithLength col "binary" 16

/-- `isTinyInt1Column` from source_mysql.go. -/
def isTinyInt1Column (col : Column) : Bool :=
  isMySQLTypeWithLength col "tinyint" 1

example : isTinyInt1Column ⟨"f", "f", "tinyint", "tinyint(1) unsigned", 0, 3,
  0, true, none, "", 1⟩ = true := by decide

example : isTinyInt1Column ⟨"f", "f", "tinyint", "tinyint(4)", 0, 3,
  0, true, none, "", 1⟩ = false := by decide

/-- `mysqlMapType` from source_mysql.go: the MySQL → PostgreSQL type switch
(branches in source order). -/
def mysqlMapType (col : Column) (typeMap : TypeMappingConfig) :
    Except String String :=
  let isUnsigned := goContains col.columnType "unsigned"
  if isBinary16Column col && typeMap.binary16AsUUID then .ok "uuid"
  else if isTinyInt1Column col && typeMap.tinyInt1AsBoolean then .ok "boolean"
  else if col.dataType = "tinyint" then .ok "smallint"
  else if col.dataType = "smallint" then
    if isUnsigned then .ok "integer" else .ok "smallint"
  else if col.dataType = "mediumint" then .ok "integer"
  else if col.dataType = "int" then
    if isUnsigned then .ok "bigint" else .ok "integer"
  else if col.dataType = "bigint" then
    if isUnsigned then .ok "numeric(20)" else .ok "bigint"
  else if col.dataType = "float" then .ok "real"
  else if col.dataType = "double" then .ok "double precision"
  else if col.dataType = "decimal" then
    .ok ("numeric(" ++ toString col.precision ++ "," ++ toString col.scale ++ ")")
  else if col.dataType = "varchar" then
    .ok ("varchar(" ++ toString col.charMaxLen ++ ")")
  else if col.dataType = "char" then
    .ok ("varchar(" ++ toString col.charMaxLen ++ ")")
  else if col.dataType = "text" || col.dataType = "mediumtext" ||
      col.dataType = "longtext" || col.dataType = "tinytext" then .ok "text"
  else if col.dataType = "json" then
    if typeMap.jsonAsJSONB then .ok "jsonb" else .ok "json"
  else if col.dataType = "enum" then
    if typeMap.enumMode = "text" || typeMap.enumMode = "check" then .ok "text"
    else .error ("unsupported enum_mode " ++ goQuote typeMap.enumMode)
  else if col.dataType = "set" then
    if typeMap.setMode = "text" then .ok "text"
    else if typeMap.setMode = "text_array" then .ok "text[]"
    else .error ("unsupported set_mode " ++ goQuote typeMap.setMode)
  else if col.dataType = "timestamp" then .ok "timestamptz"
  else if col.dataType = "datetime" then
    if typeMap.datetimeAsTimestamptz then .ok "timestamptz" else .ok "timestamp"
  else if col.dataType = "year" then .ok "integer"
  else if col.dataType = "date" then .ok "date"
  else if col.dataType = "bit" then .ok "bytea"
  else if col.dataType = "binary" || col.dataType = "varbinary" ||
      col.dataType = "blob" || col.dataType = "mediumblob" ||
      col.dataType = "longblob" || col.dataType = "tinyblob" then .ok "bytea"
  else if typeMap.unknownAsText then .ok "text"
  else .error ("unsupported MySQL type " ++ goQuote col.dataType ++
    " (column_type=" ++ goQuote col.columnType ++ ")")

/-- `unsignedCheckExpr` from post.go: range CHECK expression for unsigned
columns; `none` models Go's `("", false)`.  Note the tinyint(1)-boolean skip
tests `col.Precision == 1` directly rather than `isTinyInt1Column`. -/
def unsignedCheckExpr (col : Column) (typeMap : TypeMappingConfig) :
    Option String :=
  if !goContains col.columnType "unsigned" then none
  else if col.dataType = "tinyint" && col.precision = 1 &&
      typeMap.tinyInt1AsBoolean then none
  else
    let ident := pgIdentS col.pgName
    if col.dataType = "tinyint" then
      some (ident ++ " >= 0 AND " ++ ident ++ " <= 255")
    else if col.dataType = "smallint" then
      some (ident ++ " >= 0 AND " ++ ident ++ " <= 65535")
    else if col.dataType = "mediumint" then
      some (ident ++ " >= 0 AND " ++ ident ++ " <= 16777215")
    else if col.dataType = "int" then
      some (ident ++ " >= 0 AND " ++ ident ++ " <= 4294967295")
    else if col.dataType = "bigint" then
      some (ident ++ " >= 0 AND " ++ ident ++ " <= 18446744073709551615")
    else if col.dataType = "decimal" || col.dataType = "float" ||
        col.dataType = "double" then
      some (ident ++ " >= 0")
    else none

/-- `collectUnsupportedTypeErrors` from generated_columns.go (the
mapper-parametrised version): one formatted entry per failing column, in
schema order. -/
def collectUnsupportedTypeErrors (schema : Schema)
    (typeMap : TypeMappingConfig)
    (mapper : Column → TypeMappingConfig → Except String String) :
    List String :=
  schema.tables.flatMap fun t =>
    t.columns.filterMap fun col =>
      match mapper col typeMap with
      | .error e => some (t.sourceName ++ "." ++ col.sourceName ++ " (" ++
          col.columnType ++ "): " ++ e)
      | .ok _ => none

/-- The aggregated error text built by `runMigration` (main.go) when
unsupported column types are detected. -/
def unsupportedTypesMessage (typeErrs : List String) : String :=
  "unsupported source column types detected:\n" ++
  String.join (typeErrs.map (fun e => "  - " ++ e ++ "\n")) ++
  "Hint: set [type_mapping].unknown_as_text = true to coerce unknown types to text."

/-- `MigrationConfig` from config.go (the mode and post-load switches the
claims consult). -/
structure MigrationConfig where
  schemaOnly : Bool
  dataOnly : Bool
  cleanOrphans : Bool
  addUnsignedChecks : Bool
  replicateOnUpdateCurrentTimestamp : Bool
  typeMapping : TypeMappingConfig
deriving DecidableEq, Repr

/-- Statements executed against the target database by `runMigration`
(main.go), abstracted to named actions. -/
inductive TargetAction where
  | connectTarget
  | prepareSchema
  | createTables
  | disableTriggers
  | beforeDataHooks
  | migrateData
  | afterDataHooks
  | enableTriggers
  | postMigrate
deriving DecidableEq, Repr

/-- Control flow of `runMigration` (main.go) from the point where the source
schema has been introspected: the unsupported-type check runs first, and on
failure the run aborts with the aggregated message before any target-side
action (connecting, preparing the schema, creating tables, loading data,
post-migration) is taken.  Database effects are modelled as the list of
actions a successful run performs. -/
def runMigrationFromSchema (schema : Schema) (cfg : MigrationConfig)
    (mapper : Column → TypeMappingConfig → Except String String) :
    Except String (List TargetAction) :=
  let typeErrs := collectUnsupportedTypeErrors schema cfg.typeMapping mapper
  if typeErrs ≠ [] then .error (unsupportedTypesMessage typeErrs)
  else .ok
    ([TargetAction.connectTarget] ++
     (if !cfg.dataOnly then [TargetAction.prepareSchema,
        TargetAction.createTables] else []) ++
     (if !cfg.schemaOnly then
        (if cfg.dataOnly then [TargetAction.disableTriggers] else []) ++
        [TargetAction.beforeDataHooks, TargetAction.migrateData,
         TargetAction.afterDataHooks] ++
        (if cfg.dataOnly then [TargetAction.enableTriggers] else [])
      else []) ++
     [TargetAction.postMigrate])

/-- Sub-steps of `postMigrate` (post.go), in execution order. -/
inductive PostStep where
  | setLogged
  | primaryKeys
  | indexes
  | beforeFkHooks
  | orphanCleanup
  | foreignKeys
  | sequences
  | unsignedChecks
  | triggers
  | afterAllHooks
deriving DecidableEq, Repr

/-- Step sequence of `postMigrate` (post.go): data_only runs only sequences
and after_all hooks; otherwise SET LOGGED and orphan cleanup are skipped
only in schema_only mode, unsigned checks and triggers are gated on their
flags.  Note the orphan-cleanup gate consults only `schemaOnly` — the
`cleanOrphans` configuration flag is never read. -/
def postMigrateSteps (cfg : MigrationConfig) : List PostStep :=
  if cfg.dataOnly then [PostStep.sequences, PostStep.afterAllHooks]
  else
    (if !cfg.schemaOnly then [PostStep.setLogged] else []) ++
    [PostStep.primaryKeys, PostStep.indexes, PostStep.beforeFkHooks] ++
    (if !cfg.schemaOnly then [PostStep.orphanCleanup] else []) ++
    [PostStep.foreignKeys, PostStep.sequences] ++
    (if cfg.addUnsignedChecks then [PostStep.unsignedChecks] else []) ++
    (if cfg.replicateOnUpdateCurrentTimestamp then [PostStep.triggers] else []) ++
    [PostStep.afterAllHooks]

/-- SQL emitted by `cleanOrphans` (post.go) for one foreign key of one
table: nullify (delete rule SET NULL) or delete the rows where some FK
column is non-null and no parent row matches. -/
def cleanOrphanSQL (pgSchema : String) (t : Table) (fk : ForeignKey) :
    String :=
  let child := pgIdentS pgSchema ++ "." ++ pgIdentS t.pgName
  let parent := pgIdentS pgSchema ++ "." ++ pgIdentS fk.refPGTable
  let joinConds := (fk.columns.zip fk.refColumns).map fun cr =>
    "p." ++ pgIdentS cr.2 ++ " = c." ++ pgIdentS cr.1
  let notExists := "NOT EXISTS (SELECT 1 FROM " ++ parent ++ " p WHERE " ++
    String.intercalate " AND " joinConds ++ ")"
  let whereNotNull := String.intercalate " OR "
    (fk.columns.map fun c0 => "c." ++ pgIdentS c0 ++ " IS NOT NULL")
  if goEqualFold fk.deleteRule "SET NULL" then
    "UPDATE " ++ child ++ " c SET " ++
      String.intercalate ", " (fk.columns.map fun c0 => pgIdentS c0 ++ " = NULL") ++
      " WHERE (" ++ whereNotNull ++ ") AND " ++ notExists
  else
    "DELETE FROM " ++ child ++ " c WHERE (" ++ whereNotNull ++ ") AND " ++
      notExists

/-- Single-quote character as a string, for SQL text containing quoted
sequence names. -/
def sqS : String := String.singleton squote

/-- The three statements `resetSequences` (post.go) emits for one
auto-increment column, in order: create the sequence, set its value from
`COALESCE(MAX(col), 0) + 1` with `is_called = false`, and attach it as the
column default. -/
def seqStmtsFor (pgSchema : String) (t : Table) (col : Column) :
    List String :=
  let seqName := t.pgName ++ "_" ++ col.pgName ++ "_seq"
  ["CREATE SEQUENCE IF NOT EXISTS " ++ pgIdentS pgSchema ++ "." ++
     pgIdentS seqName,
   "SELECT setval(" ++ sqS ++ pgSchema ++ "." ++ seqName ++ sqS ++
     ", COALESCE((SELECT MAX(" ++ pgIdentS col.pgName ++ ") FROM " ++
     pgIdentS pgSchema ++ "." ++ pgIdentS t.pgName ++ "), 0) + 1, false)",
   "ALTER TABLE " ++ pgIdentS pgSchema ++ "." ++ pgIdentS t.pgName ++
     " ALTER COLUMN " ++ pgIdentS col.pgName ++ " SET DEFAULT nextval(" ++
     sqS ++ pgSchema ++ "." ++ seqName ++ sqS ++ ")"]

/-- All statements emitted by `resetSequences` (post.go): tables in schema
order, auto-increment columns (`extra` contains `auto_increment`) in column
order. -/
def resetSequencesStmts (schema : Schema) (pgSchema : String) : List String :=
  schema.tables.flatMap fun t =>
    (t.columns.filter (fun col => goContains col.extra "auto_increment")).flatMap
      (seqStmtsFor pgSchema t)

/-- State of a PostgreSQL sequence, modelled from the PostgreSQL
documentation of `setval`/`nextval` (external to this repository). -/
structure PGSequence where
  lastValue : Int
  isCalled : Bool
deriving DecidableEq, Repr

/-- PostgreSQL `setval(seq, v, is_called)`. -/
def pgSetval (v : Int) (isCalled : Bool) : PGSequence := ⟨v, isCalled⟩

/-- PostgreSQL `nextval(seq)`: returns `last_value` itself the first time
when `is_called` is false, else advances by one. -/
def pgNextval (s : PGSequence) : Int × PGSequence :=
  if s.isCalled then (s.lastValue + 1, ⟨s.lastValue + 1, true⟩)
  else (s.lastValue, ⟨s.lastValue, true⟩)

/-- SQL `COALESCE((SELECT MAX(col) FROM t), 0)`: the inner select is NULL
(`none`) exactly when the table has no rows. -/
def coalesceMax0 (maxVal : Option Int) : Int := maxVal.getD 0

/-- MySQL source types that have an explicit branch in `mysqlMapType`; any
other type reaches the default branch. -/
def mysqlHandledTypes : List String :=
  ["tinyint", "smallint", "mediumint", "int", "bigint", "float", "double",
   "decimal", "varchar", "char", "text", "mediumtext", "longtext", "tinytext",
   "json", "enum", "set", "timestamp", "datetime", "year", "date", "bit",
   "binary", "varbinary", "blob", "mediumblob", "longblob", "tinyblob"]

/-- Claim C2: before any statement is executed against the target, the
orchestrator collects one formatted entry per failing column and, if any
exist, aborts with the aggregated message listing all of them — the result
is an error carrying the complete list and no target action (in particular
no schema creation) is performed (first conjunct); and for a column whose
source type has no mapping branch, the type mapping fails exactly when
`unknown_as_text` is disabled (second conjunct). -/
theorem C2_unsupported_types_abort :
    (∀ (schema : Schema) (cfg : MigrationConfig),
      collectUnsupportedTypeErrors schema cfg.typeMapping mysqlMapType ≠ [] →
      runMigrationFromSchema schema cfg mysqlMapType =
        Except.error (unsupportedTypesMessage
          (collectUnsupportedTypeErrors schema cfg.typeMapping mysqlMapType))) ∧
    (∀ (col : Column) (tm : TypeMappingConfig),
      col.dataType ∉ mysqlHandledTypes →
      ((∃ e, mysqlMapType col tm = Except.error e) ↔
        tm.unknownAsText = false)) := by
  constructor
  · intro schema cfg h
    unfold runMigrationFromSchema
    rw [if_pos h]
  · intro col tm hno
    have hne : ∀ s, s ∈ mysqlHandledTypes → col.dataType ≠ s :=
      fun s hs h => hno (h ▸ hs)
    have hb16 : isBinary16Column col = false := by
      unfold isBinary16Column isMySQLTypeWithLength
      rw [if_pos (hne "binary" (by decide))]
    have ht1 : isTinyInt1Column col = false := by
      unfold isTinyInt1Column isMySQLTypeWithLength
      rw [if_pos (hne "tinyint" (by decide))]
    simp only [mysqlMapType]
    rw [if_neg (by rw [hb16]; simp),
      if_neg (by rw [ht1]; simp),
      if_neg (hne "tinyint" (by decide)),
      if_neg (hne "smallint" (by decide)),
      if_neg (hne "mediumint" (by decide)),
      if_neg (hne "int" (by decide)),
      if_neg (hne "bigint" (by decide)),
      if_neg (hne "float" (by decide)),
      if_neg (hne "double" (by decide)),
      if_neg (hne "decimal" (by decide)),
      if_neg (hne "varchar" (by decide)),
      if_neg (hne "char" (by decide)),
      if_neg (by simp [hne "text" (by decide), hne "mediumtext" (by decide),
        hne "longtext" (by decide), hne "tinytext" (by decide)]),
      if_neg (hne "json" (by decide)),
      if_neg (hne "enum" (by decide)),
      if_neg (hne "set" (by decide)),
      if_neg (hne "timestamp" (by decide)),
      if_neg (hne "datetime" (by decide)),
      if_neg (hne "year" (by decide)),
      if_neg (hne "date" (by decide)),
      if_neg (hne "bit" (by decide)),
      if_neg (by simp [hne "binary" (by decide), hne "varbinary" (by decide),
        hne "blob" (by decide), hne "mediumblob" (by decide),
        hne "longblob" (by decide), hne "tinyblob" (by decide)])]
    cases htm : tm.unknownAsText with
    | true => simp
    | false => simp

/-- Type-mapping configuration with every coercion disabled (defaults for
enum and set modes). -/
def tmNoUnknown : TypeMappingConfig :=
  ⟨false, false, false, false, "text", "text", false, false, false, false⟩

/-- Unsupported GEOMETRY column of the specification's type-mapping
rejection scenario. -/
def c2Col : Column :=
  ⟨"geom", "geom", "geometry", "geometry", 0, 0, 0, true, none, "", 1⟩

/-- One-table schema containing the unsupported column. -/
def c2Schema : Schema := ⟨[⟨"places", "places", [c2Col], none, [], []⟩]⟩

/-- Full-mode configuration with `unknown_as_text` disabled. -/
def c2Cfg : MigrationConfig := ⟨false, false, true, false, false, tmNoUnknown⟩

/-- Witness for C2: a schema with a GEOMETRY column and `unknown_as_text`
disabled aborts with the aggregated message, and the unmapped type errors
exactly because the flag is off. -/
theorem C2_unsupported_types_abort_witness :
    runMigrationFromSchema c2Schema c2Cfg mysqlMapType =
      Except.error (unsupportedTypesMessage
        (collectUnsupportedTypeErrors c2Schema c2Cfg.typeMapping mysqlMapType)) ∧
    ((∃ e, mysqlMapType c2Col tmNoUnknown = Except.error e) ↔
      tmNoUnknown.unknownAsText = false) :=
  ⟨C2_unsupported_types_abort.1 c2Schema c2Cfg (by decide),
   C2_unsupported_types_abort.2 c2Col tmNoUnknown (by decide)⟩

/-- Full-mode configuration with `clean_orphans` explicitly disabled. -/
def c4Cfg : MigrationConfig := ⟨false, false, false, false, false, tmNoUnknown⟩

/-- A child table and its foreign key used to evaluate the orphan-cleanup
SQL (parameterised by the FK delete rule). -/
def c4Fk (rule : String) : ForeignKey :=
  ⟨"fk_child_parent", ["parent_id"], "Parent", "parent", ["id"],
   "NO ACTION", rule⟩

/-- Child table for the orphan-cleanup evaluation. -/
def c4Table : Table := ⟨"Child", "child", [], none, [], [c4Fk "SET NULL"]⟩

/-- Claim C4 (code bug): with `clean_orphans = false` in full mode the
orphan-cleanup step still runs — `postMigrate` gates the step only on
`schema_only`, never consulting the flag (first conjunct); the per-FK SQL
itself matches the claim: an UPDATE setting the FK columns to NULL under
the non-null-and-no-parent predicate for delete rule SET NULL (second
conjunct), and a DELETE under the same predicate otherwise (third
conjunct). -/
theorem C4_orphan_cleanup_flag_ignored :
    PostStep.orphanCleanup ∈ postMigrateSteps c4Cfg ∧
    cleanOrphanSQL "app" c4Table (c4Fk "SET NULL") =
      "UPDATE app.child c SET parent_id = NULL WHERE (c.parent_id IS NOT NULL) AND NOT EXISTS (SELECT 1 FROM app.parent p WHERE p.id = c.parent_id)" ∧
    cleanOrphanSQL "app" c4Table (c4Fk "CASCADE") =
      "DELETE FROM app.child c WHERE (c.parent_id IS NOT NULL) AND NOT EXISTS (SELECT 1 FROM app.parent p WHERE p.id = c.parent_id)" := by
  refine ⟨by decide, by decide, by decide⟩

/-- The `tinyint(1) unsigned` column of the failing unit test
`TestUnsignedCheckExpr` (post_unsigned_test.go): MySQL reports numeric
precision 3 for tinyint, while the declared type carries the display width
`(1)`. -/
def c5Col : Column :=
  ⟨"enabled", "enabled", "tinyint", "tinyint(1) unsigned", 0, 3, 0, true,
   none, "", 1⟩

/-- Type mapping with the boolean coercion enabled. -/
def c5TypeMap : TypeMappingConfig :=
  ⟨true, false, false, false, "text", "text", false, false, false, false⟩

/-- Claim C5 (code bug): the column is coerced to boolean by the type mapper
(which parses the declared `(1)` from `column_type`), yet `unsignedCheckExpr`
still emits a range constraint because its skip tests `precision == 1`
directly and MySQL metadata reports precision 3 — contradicting the unit
test, which expects no constraint for exactly this column.  With the
precision forced to 1 the skip fires, confirming the intent. -/
theorem C5_unsigned_check_tinyint1_bug :
    mysqlMapType c5Col c5TypeMap = Except.ok "boolean" ∧
    unsignedCheckExpr c5Col c5TypeMap =
      some "enabled >= 0 AND enabled <= 255" ∧
    unsignedCheckExpr { c5Col with precision := 1 } c5TypeMap = none := by
  refine ⟨rfl, by decide, by decide⟩

/-- A varchar column with symbolic character length. -/
def c6VarcharCol (n : Int) : Column :=
  ⟨"name", "name", "varchar", "varchar(50)", n, 0, 0, true, none, "", 1⟩

/-- A char column with symbolic character length. -/
def c6CharCol (n : Int) : Column :=
  ⟨"code", "code", "char", "char(8)", n, 0, 0, true, none, "", 1⟩

/-- Claim C6 (code bug): `mysqlMapType` maps varchar(n) and char(n) columns
to `varchar(n)` for EVERY type-mapping configuration — the documented
`varchar_as_text` flag is parsed by the configuration layer but never
consulted by the mapper, so enabling it does not produce `text`. -/
theorem C6_varchar_as_text_ignored :
    (∀ (tm : TypeMappingConfig) (n : Int),
      mysqlMapType (c6VarcharCol n) tm =
        Except.ok ("varchar(" ++ toString n ++ ")")) ∧
    (∀ (tm : TypeMappingConfig) (n : Int),
      mysqlMapType (c6CharCol n) tm =
        Except.ok ("varchar(" ++ toString n ++ ")")) ∧
    mysqlMapType (c6VarcharCol 50) { tmNoUnknown with varcharAsText := true } ≠
      Except.ok "text" := by
  refine ⟨fun tm n => rfl, fun tm n => rfl, fun h => ?_⟩
  exact absurd (Except.ok.inj h) (by decide)

/-- A statement list of one member of a `flatMap` is an ordered sublist of
the whole. -/
lemma sublist_flatMap {α β : Type} (f : α → List β) {l : List α} {a : α}
    (h : a ∈ l) : (f a).Sublist (l.flatMap f) := by
  induction l with
  | nil => cases h
  | cons b r ih =>
    rw [List.flatMap_cons]
    rcases List.mem_cons.mp h with rfl | hm
    · exact List.sublist_append_left (f a) (r.flatMap f)
    · exact (ih hm).trans (List.sublist_append_right (f b) (r.flatMap f))

/-- Claim C8: for every column whose `extra` contains `auto_increment`, the
sequence-reset step emits, in order, CREATE SEQUENCE IF NOT EXISTS
`<table>_<col>_seq`, `SELECT setval(seq, COALESCE(MAX(col), 0) + 1, false)`,
and `ALTER TABLE … SET DEFAULT nextval(seq)` (first conjunct: the three
statements appear in this order in the emitted statement stream);
consequently, for a table with no rows (`MAX` is NULL) the next value drawn
from the sequence is 1 (second conjunct, under the modelled PostgreSQL
sequence semantics). -/
theorem C8_reset_sequences :
    (∀ (schema : Schema) (pgSchema : String) (t : Table) (col : Column),
      t ∈ schema.tables → col ∈ t.columns →
      goContains col.extra "auto_increment" = true →
      List.Sublist
        ["CREATE SEQUENCE IF NOT EXISTS " ++ pgIdentS pgSchema ++ "." ++
           pgIdentS (t.pgName ++ "_" ++ col.pgName ++ "_seq"),
         "SELECT setval(" ++ sqS ++ pgSchema ++ "." ++
           (t.pgName ++ "_" ++ col.pgName ++ "_seq") ++ sqS ++
           ", COALESCE((SELECT MAX(" ++ pgIdentS col.pgName ++ ") FROM " ++
           pgIdentS pgSchema ++ "." ++ pgIdentS t.pgName ++ "), 0) + 1, false)",
         "ALTER TABLE " ++ pgIdentS pgSchema ++ "." ++ pgIdentS t.pgName ++
           " ALTER COLUMN " ++ pgIdentS col.pgName ++
           " SET DEFAULT nextval(" ++ sqS ++ pgSchema ++ "." ++
           (t.pgName ++ "_" ++ col.pgName ++ "_seq") ++ sqS ++ ")"]
        (resetSequencesStmts schema pgSchema)) ∧
    (pgNextval (pgSetval (coalesceMax0 none + 1) false)).1 = 1 := by
  constructor
  · intro schema pgSchema t col ht hcol hai
    have h1 : seqStmtsFor pgSchema t col =
        ["CREATE SEQUENCE IF NOT EXISTS " ++ pgIdentS pgSchema ++ "." ++
           pgIdentS (t.pgName ++ "_" ++ col.pgName ++ "_seq"),
         "SELECT setval(" ++ sqS ++ pgSchema ++ "." ++
           (t.pgName ++ "_" ++ col.pgName ++ "_seq") ++ sqS ++
           ", COALESCE((SELECT MAX(" ++ pgIdentS col.pgName ++ ") FROM " ++
           pgIdentS pgSchema ++ "." ++ pgIdentS t.pgName ++ "), 0) + 1, false)",
         "ALTER TABLE " ++ pgIdentS pgSchema ++ "." ++ pgIdentS t.pgName ++
           " ALTER COLUMN " ++ pgIdentS col.pgName ++
           " SET DEFAULT nextval(" ++ sqS ++ pgSchema ++ "." ++
           (t.pgName ++ "_" ++ col.pgName ++ "_seq") ++ sqS ++ ")"] := rfl
    rw [← h1]
    unfold resetSequencesStmts
    refine List.Sublist.trans ?_
      (sublist_flatMap (fun t2 => (t2.columns.filter
        (fun col2 => goContains col2.extra "auto_increment")).flatMap
        (seqStmtsFor pgSchema t2)) ht)
    exact sublist_flatMap (seqStmtsFor pgSchema t)
      (List.mem_filter.mpr ⟨hcol, hai⟩)
  · rfl

/-- Auto-increment id column for the C8 witness. -/
def c8Col : Column :=
  ⟨"id", "id", "int", "int unsigned", 0, 10, 0, false, none,
   "auto_increment", 1⟩

/-- One-table schema for the C8 witness. -/
def c8Schema : Schema := ⟨[⟨"users", "users", [c8Col], none, [], []⟩]⟩

/-- Witness for C8: in the one-table schema the three statements for
`users.id` appear in order in the emitted stream. -/
theorem C8_reset_sequences_witness :
    List.Sublist
      ["CREATE SEQUENCE IF NOT EXISTS " ++ pgIdentS "app" ++ "." ++
         pgIdentS ("users" ++ "_" ++ "id" ++ "_seq"),
       "SELECT setval(" ++ sqS ++ "app" ++ "." ++
         ("users" ++ "_" ++ "id" ++ "_seq") ++ sqS ++
         ", COALESCE((SELECT MAX(" ++ pgIdentS "id" ++ ") FROM " ++
         pgIdentS "app" ++ "." ++ pgIdentS "users" ++ "), 0) + 1, false)",
       "ALTER TABLE " ++ pgIdentS "app" ++ "." ++ pgIdentS "users" ++
         " ALTER COLUMN " ++ pgIdentS "id" ++
         " SET DEFAULT nextval(" ++ sqS ++ "app" ++ "." ++
         ("users" ++ "_" ++ "id" ++ "_seq") ++ sqS ++ ")"]
      (resetSequencesStmts c8Schema "app") :=
  C8_reset_sequences.1 c8Schema "app" ⟨"users", "users", [c8Col], none, [], []⟩
    c8Col (by decide) (by decide) (by decide)
